import Mathlib

/-!
A verification development for the control-plane client in
`p4utils/utils/runtime_API.py`.  The Python source is embedded shallowly:

* Python byte/text strings are `List Char` (`PyStr`);
* Python unbounded integers are `Int` (bit widths, which are JSON schema
  data, are `Nat`);
* raised exceptions are the error component of `Except PyExc`;
* the global resource registries (`TABLES`, `ACTIONS`, ..., and
  `SUFFIX_LOOKUP_MAP`) are an explicit `Registry` value threaded through the
  functions that read or write them;
* the Thrift client is opaque: an operation that reaches its final remote
  call returns a `RemoteOp` descriptor of that call instead of performing it.

Definitions keep the source's names and control flow; helper functions that
stand for Python builtins (`int(...)`, `str.split`, `struct.pack`) are
modelled explicitly and are named `py...`.
-/

namespace P4RT

/-- Python strings (both text and byte strings) as lists of characters. -/
abbrev PyStr := List Char

/-! ## Python builtin helpers -/

/-- One step of Python `str.split(sep)` for a single-character separator:
`"a.b".split "." = ["a","b"]`, `"".split "." = [""]`. -/
def splitChar (c : Char) (s : PyStr) : List PyStr :=
  match s with
  | [] => [[]]
  | x :: rest =>
    match splitChar c rest with
    | [] => [[]]
    | p :: ps => if x = c then [] :: p :: ps else (x :: p) :: ps

/-- Fuel-driven worker for Python `str.split(sep)` with a non-empty separator:
scan left to right, cutting at each non-overlapping occurrence of `sep`. -/
def pySplitGo (sep : PyStr) : Nat → PyStr → PyStr → List PyStr
  | 0, _, acc => [acc.reverse]
  | _ + 1, [], acc => [acc.reverse]
  | fuel + 1, c :: rest, acc =>
    if (c :: rest).take sep.length = sep then
      acc.reverse :: pySplitGo sep fuel ((c :: rest).drop sep.length) []
    else
      pySplitGo sep fuel rest (c :: acc)

/-- Python `s.split(sep)` for a non-empty separator `sep`. -/
def pySplit (sep : PyStr) (s : PyStr) : List PyStr :=
  pySplitGo sep (s.length + 1) s []

/-- Value of a decimal digit character, `none` for any other character. -/
def digitVal (c : Char) : Option Nat :=
  if '0' ≤ c ∧ c ≤ '9' then some (c.toNat - '0'.toNat) else none

/-- Value of a hexadecimal digit character. -/
def hexVal (c : Char) : Option Nat :=
  if '0' ≤ c ∧ c ≤ '9' then some (c.toNat - '0'.toNat)
  else if 'a' ≤ c ∧ c ≤ 'f' then some (c.toNat - 'a'.toNat + 10)
  else if 'A' ≤ c ∧ c ≤ 'F' then some (c.toNat - 'A'.toNat + 10)
  else none

/-- Value of an octal digit character. -/
def octVal (c : Char) : Option Nat :=
  if '0' ≤ c ∧ c ≤ '7' then some (c.toNat - '0'.toNat) else none

/-- Value of a binary digit character. -/
def binVal (c : Char) : Option Nat :=
  if c = '0' ∨ c = '1' then some (c.toNat - '0'.toNat) else none

/-- Fold a non-empty digit string into a number with the given per-digit
reader and base; `none` as soon as a character is not a digit. -/
def readDigitsGo (dv : Char → Option Nat) (base : Nat) : PyStr → Nat → Option Nat
  | [], acc => some acc
  | c :: cs, acc =>
    match dv c with
    | some d => readDigitsGo dv base cs (acc * base + d)
    | none => none

/-- All-digits read of a non-empty string. -/
def readDigits (dv : Char → Option Nat) (base : Nat) (s : PyStr) : Option Nat :=
  match s with
  | [] => none
  | _ => readDigitsGo dv base s 0

/-- Split a leading sign off a Python integer literal. -/
def pySign (s : PyStr) : Bool × PyStr :=
  match s with
  | [] => (false, [])
  | c :: rest =>
    if c = '-' then (true, rest)
    else if c = '+' then (false, rest)
    else (false, c :: rest)

/-- Apply a sign to a parsed magnitude. -/
def applySign (neg : Bool) (n : Nat) : Int :=
  if neg then -(n : Int) else (n : Int)

/-- Python 2 `int(s)` (base 10): optional sign, then decimal digits; leading
zeros are accepted.  (Surrounding whitespace is not modelled; no input in
this development carries whitespace.) -/
def pyInt10 (s : PyStr) : Option Int :=
  let (neg, body) := pySign s
  (readDigits digitVal 10 body).map (applySign neg)

/-- Python 2 `int(s, 16)`: optional sign, optional `0x`/`0X` prefix, then
hexadecimal digits. -/
def pyInt16 (s : PyStr) : Option Int :=
  let sb := pySign s
  let body :=
    match sb.2 with
    | c :: x :: rest =>
      if c = '0' ∧ (x = 'x' ∨ x = 'X') then rest else sb.2
    | _ => sb.2
  (readDigits hexVal 16 body).map (applySign sb.1)

/-- Python 2 `int(s, 0)`: optional sign, then a C-style integer literal —
`0x`/`0X` hexadecimal, `0o`/`0O` octal, `0b`/`0B` binary, a literal starting
with `0` read as octal, otherwise decimal. -/
def pyInt0 (s : PyStr) : Option Int :=
  let sb := pySign s
  let mag : Option Nat :=
    match sb.2 with
    | [] => none
    | c :: rest =>
      if c = '0' then
        match rest with
        | [] => some 0
        | x :: rest2 =>
          if x = 'x' ∨ x = 'X' then readDigits hexVal 16 rest2
          else if x = 'o' ∨ x = 'O' then readDigits octVal 8 rest2
          else if x = 'b' ∨ x = 'B' then readDigits binVal 2 rest2
          else readDigits octVal 8 (x :: rest2)
      else readDigits digitVal 10 (c :: rest)
  mag.map (applySign sb.1)

/-- Little-endian base-256 digit extraction, the loop
`while i > 0: byte_array.append(i % 256); i = i / 256` of `int_to_bytes`.
Fuel-driven so that it evaluates by kernel reduction; `n` itself is always
enough fuel. -/
def bytesLEGo : Nat → Nat → List Nat
  | 0, _ => []
  | _ + 1, 0 => []
  | fuel + 1, n + 1 => (n + 1) % 256 :: bytesLEGo fuel ((n + 1) / 256)

/-- The base-256 little-endian digits of a natural number. -/
def bytesLE (n : Nat) : List Nat := bytesLEGo n n

/-- Little-endian base-10 digit characters, fuel-driven. -/
def decDigitsGo : Nat → Nat → List Char
  | 0, _ => []
  | _ + 1, 0 => []
  | fuel + 1, n + 1 => Nat.digitChar ((n + 1) % 10) :: decDigitsGo fuel ((n + 1) / 10)

/-- The canonical decimal literal of a natural number, as Python `str(n)`
would print it. -/
def decLit (n : Nat) : PyStr :=
  if n = 0 then ['0'] else (decDigitsGo n n).reverse

/-- Decimal literal of a Python integer (used by `%s` / `%d` formatting). -/
def intLit (i : Int) : PyStr :=
  if i < 0 then '-' :: decLit i.natAbs else decLit i.toNat

/-! ## Exceptions

`UIn_Error` and its subclasses, plus the other exception classes that can
cross function boundaries in the embedded fragment.  `CLI_FormatExploreError`
is a plain `Exception` subclass (not a `UIn_Error`); `valueError`,
`typeError`, `structError` and `indexError` stand for the Python builtin
exceptions raised by `int(...)`, `struct.pack` and list indexing. -/

/-- The `UIn_Error` class hierarchy, flattened to a kind tag. -/
inductive UInKind
  | resource      -- UIn_ResourceError
  | matchKey      -- UIn_MatchKeyError
  | runtimeData   -- UIn_RuntimeDataError
  | badParam      -- UIn_BadParamError
  | badIPv4       -- UIn_BadIPv4Error
  | badIPv6       -- UIn_BadIPv6Error
  | badMac        -- UIn_BadMacError
  | plain         -- UIn_Error itself
  deriving DecidableEq, Repr

/-- The Thrift `Invalid*Operation` exception families enumerated by
`handle_bad_input` (and, for `mcOp`, by `handle_bad_input_mc`). -/
inductive RemoteKind
  | tableOp | counterOp | meterOp | registerOp
  | learnOp | swapOp | devMgrOp | crcOp | mcOp
  deriving DecidableEq, Repr

/-- Exceptions of the embedded fragment. -/
inductive PyExc
  | uin (k : UInKind) (msg : PyStr)
  | formatExplore                      -- CLI_FormatExploreError
  | valueError                         -- builtin ValueError
  | typeError                          -- builtin TypeError
  | structError                        -- struct.error
  | indexError                         -- builtin IndexError
  | remote (k : RemoteKind) (code : Nat)
  deriving DecidableEq, Repr

/-- Decidable equality for `Except`, so that concrete runs of the embedded
functions can be checked by `decide`. -/
instance {ε α : Type _} [DecidableEq ε] [DecidableEq α] : DecidableEq (Except ε α) := fun a b =>
  match a, b with
  | .error e, .error f =>
    match decEq e f with
    | isTrue h => isTrue (h ▸ rfl)
    | isFalse h => isFalse (fun hh => h (by injection hh))
  | .ok x, .ok y =>
    match decEq x y with
    | isTrue h => isTrue (h ▸ rfl)
    | isFalse h => isFalse (fun hh => h (by injection hh))
  | .error _, .ok _ => isFalse (fun hh => by injection hh)
  | .ok _, .error _ => isFalse (fun hh => by injection hh)

/-! ## Binary codec -/

/-- A Python list comprehension `[f(b) for b in l]` over a fallible `f`:
aborts at the first element `f` rejects. -/
def pyMapList {α β : Type} (f : α → Option β) : List α → Option (List β)
  | [] => some []
  | x :: xs =>
    match f x with
    | none => none
    | some y => (pyMapList f xs).map (y :: ·)

/-- `ipv4Addr_to_bytes`: reject strings without `.` (handing control back to
the generic parse), require exactly four `.`-separated `int(...)`-parseable
octets. -/
def ipv4Addr_to_bytes (addr : PyStr) : Except PyExc (List Int) :=
  if ¬ addr.contains '.' then .error .formatExplore
  else if (pySplit ['.'] addr).length ≠ 4 then .error (.uin .badIPv4 [])
  else
    match pyMapList pyInt10 (pySplit ['.'] addr) with
    | some bs => .ok bs
    | none => .error (.uin .badIPv4 [])

/-- `macAddr_to_bytes`: reject strings without `:`, require exactly six
`:`-separated base-16 groups. -/
def macAddr_to_bytes (addr : PyStr) : Except PyExc (List Int) :=
  if ¬ addr.contains ':' then .error .formatExplore
  else if (pySplit [':'] addr).length ≠ 6 then .error (.uin .badMac [])
  else
    match pyMapList pyInt16 (pySplit [':'] addr) with
    | some bs => .ok bs
    | none => .error (.uin .badMac [])

/-- `ipv6Addr_to_bytes`.  The `:`-presence check is the source's; the actual
address parse is delegated to the external `ipaddr.IPv6Address` library,
modelled here for uncompressed `a:b:c:d:e:f:g:h` addresses (eight 16-bit
hexadecimal groups); every other colon-carrying string fails.  No claim
exercises the colon branch. -/
def ipv6Addr_to_bytes (addr : PyStr) : Except PyExc (List Int) :=
  if ¬ addr.contains ':' then .error .formatExplore
  else if (pySplit [':'] addr).length ≠ 8 then .error (.uin .badIPv6 [])
  else
    match pyMapList pyInt16 (pySplit [':'] addr) with
    | some gs =>
      if gs.all (fun g => 0 ≤ g ∧ g < 65536) then
        .ok (gs.flatMap (fun g => [g / 256, g % 256]))
      else .error (.uin .badIPv6 [])
    | none => .error (.uin .badIPv6 [])

/-- Message of the oversized-parameter error in `int_to_bytes`. -/
def msgTooLarge : PyStr := "Parameter is too large".toList

/-- `int_to_bytes(i, num)`: extract base-256 digits of `i` while `i > 0`
(no iterations when `i <= 0`), fail if more than `num` digits were needed,
left-pad with zero bytes to exactly `num`, and reverse to big-endian. -/
def int_to_bytes (i : Int) (num : Int) : Except PyExc (List Int) :=
  let ds : List Int := if 0 < i then (bytesLE i.toNat).map Int.ofNat else []
  let rem : Int := num - ds.length
  if rem < 0 then .error (.uin .badParam msgTooLarge)
  else .ok ((ds ++ List.replicate rem.toNat 0).reverse)

/-- Message of the integer-cast failure in `parse_param`. -/
def msgNotInt : PyStr :=
  "Invalid input, could not cast to integer, try in hex with 0x prefix".toList

/-- The generic-integer tail of `parse_param`: `int(input_str, 0)` followed
by `int_to_bytes(input_, (bitwidth + 7) / 8)`. -/
def parse_param_int (input_str : PyStr) (bitwidth : Nat) : Except PyExc (List Int) :=
  match pyInt0 input_str with
  | none => .error (.uin .badParam msgNotInt)
  | some input_ => int_to_bytes input_ ((bitwidth + 7) / 8)

/-- `parse_param(input_str, bitwidth)`: width-directed dispatch to the IPv4 /
MAC / IPv6 parsers, falling through to the generic integer parse when the
address parser reports `CLI_FormatExploreError`, and converting its strict
validation failures into `UIn_BadParamError`s. -/
def parse_param (input_str : PyStr) (bitwidth : Nat) : Except PyExc (List Int) :=
  if bitwidth = 32 then
    match ipv4Addr_to_bytes input_str with
    | .ok r => .ok r
    | .error .formatExplore => parse_param_int input_str bitwidth
    | .error (.uin .badIPv4 _) => .error (.uin .badParam "Invalid IPv4 address".toList)
    | .error e => .error e
  else if bitwidth = 48 then
    match macAddr_to_bytes input_str with
    | .ok r => .ok r
    | .error .formatExplore => parse_param_int input_str bitwidth
    | .error (.uin .badMac _) => .error (.uin .badParam "Invalid MAC address".toList)
    | .error e => .error e
  else if bitwidth = 128 then
    match ipv6Addr_to_bytes input_str with
    | .ok r => .ok r
    | .error .formatExplore => parse_param_int input_str bitwidth
    | .error (.uin .badIPv6 _) => .error (.uin .badParam "Invalid IPv6 address".toList)
    | .error e => .error e
  else parse_param_int input_str bitwidth

/-- `bytes_to_string` (`struct.pack('B' * len, *byte_array)`): identity on the
byte values, but `struct.error` when any value is outside `0..255`. -/
def bytes_to_string (byte_array : List Int) : Except PyExc (List Int) :=
  if byte_array.all (fun b => 0 ≤ b ∧ b < 256) then .ok byte_array
  else .error .structError

/-- Modelled from the spec: the decode direction of the §8 round-trip
property `decode(encode(v, bit_width), bit_width) == v` — the source ships no
parameter decoder, so the byte sequence is interpreted as the spec describes
the encoding: big-endian, most-significant byte first. -/
def decode_bytes (bs : List Int) : Int :=
  bs.foldl (fun a b => a * 256 + b) 0

/-! ## Configuration model: enums and resource records -/

/-- `MatchType`. -/
inductive MatchType
  | EXACT | LPM | TERNARY | VALID | RANGE
  deriving DecidableEq, Repr

/-- `TableType`. -/
inductive TableType
  | simple | indirect | indirect_ws
  deriving DecidableEq, Repr

/-- `MeterType`. -/
inductive MeterType
  | packets | bytes
  deriving DecidableEq, Repr

/-- `Action`: name, id and the ordered `(param_name, bitwidth)` list. -/
structure Action where
  name : PyStr
  id_ : Int
  runtime_data : List (PyStr × Nat)
  deriving DecidableEq, Repr

/-- `Action.num_params`. -/
def Action.num_params (a : Action) : Nat := a.runtime_data.length

/-- `Table`.  `actions` holds the key set of the table's `actions` dict
(action full names); `action_prof` the name of the bound `ActionProf`. -/
structure Table where
  name : PyStr
  id_ : Int
  match_type : MatchType
  type_ : TableType
  support_timeout : Bool
  actions : List PyStr
  key : List (PyStr × MatchType × Nat)
  action_prof : Option PyStr
  deriving DecidableEq, Repr

/-- `Table.num_key_fields`. -/
def Table.num_key_fields (t : Table) : Nat := t.key.length

/-- `ActionProf`. -/
structure ActionProf where
  name : PyStr
  id_ : Int
  with_selection : Bool
  actions : List PyStr
  ref_cnt : Nat
  deriving DecidableEq, Repr

/-- `MeterArray`.  `size` is set only for non-direct arrays, `binding` only
for direct ones. -/
structure MeterArray where
  name : PyStr
  id_ : Int
  type_ : MeterType
  is_direct : Bool
  size : Option Int
  binding : Option PyStr
  rate_count : Int
  deriving DecidableEq, Repr

/-- `CounterArray`. -/
structure CounterArray where
  name : PyStr
  id_ : Int
  is_direct : Bool
  size : Option Int
  binding : Option PyStr
  deriving DecidableEq, Repr

/-- `RegisterArray`. -/
structure RegisterArray where
  name : PyStr
  id_ : Int
  width : Int
  size : Int
  deriving DecidableEq, Repr

/-! ## Match-key encoding -/

/-- The `BmMatchParam` thrift struct: exactly one variant field is set,
matching `_match_types_mapping`. -/
inductive BmMatchParam
  | exact (key : List Int)
  | lpm (key : List Int) (plen : Int)
  | ternary (key mask : List Int)
  | valid (key : Bool)
  | range (start end_ : List Int)
  deriving DecidableEq, Repr

/-- Python 2 byte-string `<` : lexicographic comparison on the byte values,
a strict prefix comparing less than its extensions. -/
def pyStrLt : List Int → List Int → Bool
  | [], [] => false
  | [], _ :: _ => true
  | _ :: _, [] => false
  | a :: as2, b :: bs2 =>
    if a < b then true
    else if b < a then false
    else pyStrLt as2 bs2

/-- The inner `parse_param_` of `parse_match_key`: run `parse_param`,
rewrapping a `UIn_BadParamError` into a `UIn_MatchKeyError` with the
"Error while parsing %s - %s" message. -/
def mk_parse_param_ (field : PyStr) (bw : Nat) : Except PyExc (List Int) :=
  match parse_param field bw with
  | .ok r => .ok r
  | .error (.uin .badParam m) =>
    .error (.uin .matchKey
      ("Error while parsing ".toList ++ field ++ " - ".toList ++ m))
  | .error e => .error e

/-- One iteration of the `parse_match_key` loop: encode a single match field
according to its match kind.  Control flow follows the source exactly; in
the `VALID` arm `bool(int(field))` and in the `LPM` arm `int(length)` are
bare `int(...)` calls whose failure raises a builtin `ValueError`. -/
def parse_match_key_field (param_type : MatchType) (bw : Nat) (field : PyStr) :
    Except PyExc BmMatchParam :=
  match param_type with
  | .EXACT =>
    match mk_parse_param_ field bw with
    | .error e => .error e
    | .ok k =>
      match bytes_to_string k with
      | .error e => .error e
      | .ok key => .ok (.exact key)
  | .LPM =>
    match pySplit ['/'] field with
    | [pfx, plen] =>
      match mk_parse_param_ pfx bw with
      | .error e => .error e
      | .ok k =>
        match bytes_to_string k with
        | .error e => .error e
        | .ok key =>
          match pyInt10 plen with
          | none => .error .valueError
          | some l => .ok (.lpm key l)
    | _ =>
      .error (.uin .matchKey ("Invalid LPM value ".toList ++ field ++
        (", use \x27/\x27 to separate prefix and length").toList))
  | .TERNARY =>
    match pySplit ['&', '&', '&'] field with
    | [k0, m0] =>
      match mk_parse_param_ k0 bw with
      | .error e => .error e
      | .ok k1 =>
        match bytes_to_string k1 with
        | .error e => .error e
        | .ok key =>
          match mk_parse_param_ m0 bw with
          | .error e => .error e
          | .ok k2 =>
            match bytes_to_string k2 with
            | .error e => .error e
            | .ok mask =>
              if mask.length ≠ key.length then
                .error (.uin .matchKey
                  ("Key and mask have different lengths in expression ".toList ++ field))
              else .ok (.ternary key mask)
    | _ =>
      .error (.uin .matchKey ("Invalid ternary value ".toList ++ field ++
        (", use \x27&&&\x27 to separate key and mask").toList))
  | .VALID =>
    match pyInt10 field with
    | none => .error .valueError
    | some v => .ok (.valid (v ≠ 0))
  | .RANGE =>
    match pySplit ['-', '>'] field with
    | [s0, e0] =>
      match mk_parse_param_ s0 bw with
      | .error e => .error e
      | .ok k1 =>
        match bytes_to_string k1 with
        | .error e => .error e
        | .ok start =>
          match mk_parse_param_ e0 bw with
          | .error e => .error e
          | .ok k2 =>
            match bytes_to_string k2 with
            | .error e => .error e
            | .ok end_ =>
              if start.length ≠ end_.length then
                .error (.uin .matchKey
                  ("start and end have different lengths in expression ".toList ++ field))
              else if pyStrLt end_ start then
                .error (.uin .matchKey
                  ("start is less than end in expression ".toList ++ field))
              else .ok (.range start end_)
    | _ =>
      .error (.uin .matchKey ("Invalid range value ".toList ++ field ++
        (", use \x27->\x27 to separate range start and range end").toList))

/-- The `for idx, field in enumerate(key_fields)` loop of `parse_match_key`:
indexing past `table.key` raises a builtin `IndexError`. -/
def parse_match_key_go (table : Table) : Nat → List PyStr → Except PyExc (List BmMatchParam)
  | _, [] => .ok []
  | idx, field :: rest =>
    match table.key.get? idx with
    | none => .error .indexError
    | some (_, mt, bw) =>
      match parse_match_key_field mt bw field with
      | .error e => .error e
      | .ok param =>
        match parse_match_key_go table (idx + 1) rest with
        | .error e => .error e
        | .ok params => .ok (param :: params)

/-- `parse_match_key(table, key_fields)`. -/
def parse_match_key (table : Table) (key_fields : List PyStr) :
    Except PyExc (List BmMatchParam) :=
  parse_match_key_go table 0 key_fields

/-! ## The command wrapper -/

/-- The set of exceptions the `handle_bad_input` decorator catches: every
`UIn_Error` subclass, and the eight enumerated Thrift operation-failure
families (`InvalidMcOperation` is handled only by `handle_bad_input_mc`).
Everything else propagates out of the wrapper. -/
def wrapperCatches : PyExc → Bool
  | .uin _ _ => true
  | .remote .mcOp _ => false
  | .remote _ _ => true
  | _ => false

/-- `handle_bad_input_mc` with a configured packet replication engine: also
catches the `InvalidMcOperation` family. -/
def wrapperCatchesMc : PyExc → Bool
  | .remote .mcOp _ => true
  | e => wrapperCatches e

/-! ## Resources and the suffix lookup map -/

/-- `ResType`. -/
inductive ResType
  | table | action_prof | action | meter_array | counter_array | register_array
  deriving DecidableEq, Repr

/-- A registered resource object, the value type of `SUFFIX_LOOKUP_MAP`. -/
inductive Resource
  | table (t : Table)
  | actionProf (p : ActionProf)
  | action (a : Action)
  | meterArr (m : MeterArray)
  | counterArr (c : CounterArray)
  | registerArr (r : RegisterArray)
  deriving DecidableEq, Repr

/-- Name of a resource. -/
def Resource.name : Resource → PyStr
  | .table t => t.name
  | .actionProf p => p.name
  | .action a => a.name
  | .meterArr m => m.name
  | .counterArr c => c.name
  | .registerArr r => r.name

/-- The global `SUFFIX_LOOKUP_MAP`, as a finite map from
`(object type, suffix)` to the registered object. -/
abbrev SuffixMap := ResType × PyStr → Option Resource

/-- `RuntimeAPI.get_res`: exact lookup in the suffix map, failing with
`UIn_ResourceError` (whose message is `"Invalid %s name (%s)"`). -/
def get_res (lookup : SuffixMap) (type_name : PyStr) (name : PyStr)
    (res_type : ResType) : Except PyExc Resource :=
  match lookup (res_type, name) with
  | none =>
    .error (.uin .resource
      ("Invalid ".toList ++ type_name ++ " name (".toList ++ name ++ ")".toList))
  | some r => .ok r

/-- `get_res` at table type.  The source uses the returned object directly as
a `Table`; a non-table object under a `ResType.table` key cannot occur in a
registry built by `load_json_str`, and would surface as a Python attribute
error, modelled as `typeError`. -/
def get_res_table (lookup : SuffixMap) (type_name name : PyStr) : Except PyExc Table :=
  match get_res lookup type_name name .table with
  | .error e => .error e
  | .ok (.table t) => .ok t
  | .ok _ => .error .typeError

/-- `get_res` at counter type (same convention as `get_res_table`). -/
def get_res_counter (lookup : SuffixMap) (type_name name : PyStr) :
    Except PyExc CounterArray :=
  match get_res lookup type_name name .counter_array with
  | .error e => .error e
  | .ok (.counterArr c) => .ok c
  | .ok _ => .error .typeError

/-- `get_res` at meter type (same convention as `get_res_table`). -/
def get_res_meter (lookup : SuffixMap) (type_name name : PyStr) :
    Except PyExc MeterArray :=
  match get_res lookup type_name name .meter_array with
  | .error e => .error e
  | .ok (.meterArr m) => .ok m
  | .ok _ => .error .typeError

/-- `Table.get_action`: resolve the action name through the suffix map, then
require the resolved action's full name to be in this table's action set. -/
def Table.get_action (tbl : Table) (lookup : SuffixMap) (action_name : PyStr) :
    Option Action :=
  match lookup (.action, action_name) with
  | some (.action a) => if tbl.actions.contains a.name then some a else none
  | _ => none

/-! ## Remote operations

The Thrift client is an external collaborator: an operation that reaches its
final remote call returns a descriptor of that call. -/

/-- Descriptors of the `self.client.bm_*` / `self.mc_client.bm_mc_*` calls
issued by the embedded operations (device id 0 elided). -/
inductive RemoteOp
  | bm_mt_set_default_action (table : PyStr) (action : PyStr)
      (runtime_data : List (List Int))
  | bm_mt_add_entry (table : PyStr) (match_key : List BmMatchParam)
      (action : PyStr) (runtime_data : List (List Int)) (priority : Int)
  | bm_mt_modify_entry (table : PyStr) (entry_handle : Int) (action : PyStr)
      (runtime_data : List (List Int))
  | bm_mt_read_counter (table : PyStr) (index : Int)
  | bm_counter_read (counter : PyStr) (index : Int) (extra : Option Int)
      -- `extra`: the non-direct branch of `counter_write` passes its `value`
      -- as a stray fourth positional argument to `bm_counter_read`
  | bm_mt_write_counter (table : PyStr) (index : Int) (value : Int)
  | bm_mt_reset_counters (table : PyStr)
  | bm_counter_reset_all (counter : PyStr)
  | bm_meter_array_set_rates (meter : PyStr) (rates : List (PyStr × Int))
  | bm_mt_set_meter_rates (table : PyStr) (index : Int) (rates : List (PyStr × Int))
  | bm_meter_set_rates (meter : PyStr) (index : Int) (rates : List (PyStr × Int))
  | bm_mt_get_meter_rates (table : PyStr) (index : Int)
  | bm_meter_get_rates (meter : PyStr) (index : Int)
  deriving DecidableEq, Repr

/-! ## Runtime data (action parameters) -/

/-- The inner `parse_param_` of the module-level `parse_runtime_data`:
rewrap `UIn_BadParamError` into `UIn_RuntimeDataError`. -/
def rd_parse_param_ (field : PyStr) (bw : Nat) : Except PyExc (List Int) :=
  match parse_param field bw with
  | .ok r => .ok r
  | .error (.uin .badParam m) =>
    .error (.uin .runtimeData
      ("Error while parsing ".toList ++ field ++ " - ".toList ++ m))
  | .error e => .error e

/-- The `for input_str, bitwidth in zip(params, bitwidths)` loop of
`parse_runtime_data`. -/
def parse_runtime_data_go : List (PyStr × Nat) → Except PyExc (List (List Int))
  | [] => .ok []
  | (p, bw) :: rest =>
    match rd_parse_param_ p bw with
    | .error e => .error e
    | .ok k =>
      match bytes_to_string k with
      | .error e => .error e
      | .ok b =>
        match parse_runtime_data_go rest with
        | .error e => .error e
        | .ok bs => .ok (b :: bs)

/-- Module-level `parse_runtime_data(action, params)`. -/
def parse_runtime_data (action : Action) (params : List PyStr) :
    Except PyExc (List (List Int)) :=
  parse_runtime_data_go (params.zip (action.runtime_data.map Prod.snd))

/-- The method `RuntimeAPI.parse_runtime_data`: arity check first (note the
error message names only the expected count), then the module-level
`parse_runtime_data`. -/
def RuntimeAPI_parse_runtime_data (action : Action) (action_params : List PyStr) :
    Except PyExc (List (List Int)) :=
  if action_params.length ≠ action.num_params then
    .error (.uin .plain ("Action ".toList ++ action.name ++ " needs ".toList ++
      decLit action.num_params ++ " parameters".toList))
  else parse_runtime_data action action_params

/-! ## Table entry commands -/

/-- `RuntimeAPI.table_set_default`. -/
def table_set_default (lookup : SuffixMap) (table_name action_name : PyStr)
    (action_params : List PyStr) : Except PyExc RemoteOp :=
  match get_res_table lookup "table".toList table_name with
  | .error e => .error e
  | .ok table =>
    match table.get_action lookup action_name with
    | none =>
      .error (.uin .plain
        ("Table ".toList ++ table_name ++ " has no action ".toList ++ action_name))
    | some action =>
      match RuntimeAPI_parse_runtime_data action action_params with
      | .error e => .error e
      | .ok runtime_data =>
        .ok (.bm_mt_set_default_action table.name action.name runtime_data)

/-- Message of the priority-extraction failure in `table_add`. -/
def msgPriority : PyStr :=
  "Table is ternary, but could not extract a valid priority from args".toList

/-- `RuntimeAPI.table_add`.  `prio = none` stands for the default `prio=None`
argument (for which `int(prio)` raises, caught by the bare `except`). -/
def table_add (lookup : SuffixMap) (table_name action_name : PyStr)
    (match_keys : List PyStr) (action_params : List PyStr) (prio : Option PyStr) :
    Except PyExc RemoteOp :=
  match get_res_table lookup "table".toList table_name with
  | .error e => .error e
  | .ok table =>
    match table.get_action lookup action_name with
    | none =>
      .error (.uin .plain
        ("Table ".toList ++ table_name ++ " has no action ".toList ++ action_name))
    | some action =>
      let prio_result : Except PyExc Int :=
        if table.match_type = .TERNARY ∨ table.match_type = .RANGE then
          match prio with
          | none => .error (.uin .plain msgPriority)
          | some p =>
            match pyInt10 p with
            | none => .error (.uin .plain msgPriority)
            | some v => .ok v
        else .ok 0
      match prio_result with
      | .error e => .error e
      | .ok priority =>
        if match_keys.length ≠ table.num_key_fields then
          .error (.uin .plain ("Table ".toList ++ table_name ++ " needs ".toList ++
            decLit table.num_key_fields ++ " key fields".toList))
        else
          match RuntimeAPI_parse_runtime_data action action_params with
          | .error e => .error e
          | .ok runtime_data =>
            match parse_match_key table match_keys with
            | .error e => .error e
            | .ok mk =>
              .ok (.bm_mt_add_entry table.name mk action.name runtime_data priority)

/-- `RuntimeAPI.table_modify`. -/
def table_modify (lookup : SuffixMap) (table_name action_name entry_handle : PyStr)
    (action_parameters : List PyStr) : Except PyExc RemoteOp :=
  match get_res_table lookup "table".toList table_name with
  | .error e => .error e
  | .ok table =>
    match table.get_action lookup action_name with
    | none =>
      .error (.uin .plain
        ("Table ".toList ++ table_name ++ " has no action ".toList ++ action_name))
    | some action =>
      match pyInt10 entry_handle with
      | none => .error (.uin .plain "Bad format for entry handle".toList)
      | some handle =>
        match RuntimeAPI_parse_runtime_data action action_parameters with
        | .error e => .error e
        | .ok runtime_data =>
          .ok (.bm_mt_modify_entry table.name handle action.name runtime_data)

/-! ## Counter commands -/

/-- `RuntimeAPI.counter_read`. -/
def counter_read (lookup : SuffixMap) (counter_name index : PyStr) :
    Except PyExc RemoteOp :=
  match get_res_counter lookup "counter".toList counter_name with
  | .error e => .error e
  | .ok counter =>
    match pyInt10 index with
    | none => .error (.uin .plain "Bad format for index".toList)
    | some idx =>
      if counter.is_direct then .ok (.bm_mt_read_counter (counter.binding.getD []) idx)
      else .ok (.bm_counter_read counter.name idx none)

/-- `RuntimeAPI.counter_write`.  In the non-direct branch the source calls
`self.client.bm_counter_read(0, counter.name, index, value)` — the read
operation with a stray fourth argument — not `bm_counter_write`. -/
def counter_write (lookup : SuffixMap) (counter_name index : PyStr) (value : Int) :
    Except PyExc RemoteOp :=
  match get_res_counter lookup "counter".toList counter_name with
  | .error e => .error e
  | .ok counter =>
    match pyInt10 index with
    | none => .error (.uin .plain "Bad format for index".toList)
    | some idx =>
      if counter.is_direct then
        .ok (.bm_mt_write_counter (counter.binding.getD []) idx value)
      else .ok (.bm_counter_read counter.name idx (some value))

/-- `RuntimeAPI.counter_reset`. -/
def counter_reset (lookup : SuffixMap) (counter_name : PyStr) :
    Except PyExc RemoteOp :=
  match get_res_counter lookup "counter".toList counter_name with
  | .error e => .error e
  | .ok counter =>
    if counter.is_direct then .ok (.bm_mt_reset_counters (counter.binding.getD []))
    else .ok (.bm_counter_reset_all counter.name)

/-! ## Meter commands -/

/-- A crude model of Python `float(s)` on the plain decimal tokens used for
meter rates: optional sign, digits with at most one decimal point. -/
def pyFloatOk (s : PyStr) : Bool :=
  let body := (pySign s).2
  decide (body ≠ []) &&
    body.all (fun c => ('0' ≤ c ∧ c ≤ '9') ∨ c = '.') &&
    decide ((body.filter (fun c => c = '.')).length ≤ 1) &&
    decide (body ≠ ['.'])

/-- The rate-parsing loop shared by `meter_array_set_rates` and
`meter_set_rates`: each token must split on `:` into a float rate and an
integer burst; any malformed token aborts the whole command. -/
def parse_rates : List PyStr → Except PyExc (List (PyStr × Int))
  | [] => .ok []
  | rate :: rest =>
    match pySplit [':'] rate with
    | [r, b] =>
      if pyFloatOk r then
        match pyInt10 b with
        | none => .error (.uin .plain "Error while parsing rates".toList)
        | some bv =>
          match parse_rates rest with
          | .error e => .error e
          | .ok rs => .ok ((r, bv) :: rs)
      else .error (.uin .plain "Error while parsing rates".toList)
    | _ => .error (.uin .plain "Error while parsing rates".toList)

/-- Message of the rate-count mismatch (it names expected and actual). -/
def msgRateCount (expected : Int) (got : Nat) : PyStr :=
  "Invalid number of rates, expected ".toList ++ intLit expected ++
    " but got ".toList ++ decLit got

/-- `RuntimeAPI.meter_array_set_rates`.  Note: no `is_direct` dispatch — the
standalone array call is issued for direct and non-direct meters alike. -/
def meter_array_set_rates (lookup : SuffixMap) (meter_name : PyStr)
    (rates : List PyStr) : Except PyExc RemoteOp :=
  match get_res_meter lookup "meter".toList meter_name with
  | .error e => .error e
  | .ok meter =>
    if (rates.length : Int) ≠ meter.rate_count then
      .error (.uin .plain (msgRateCount meter.rate_count rates.length))
    else
      match parse_rates rates with
      | .error e => .error e
      | .ok new_rates => .ok (.bm_meter_array_set_rates meter.name new_rates)

/-- `RuntimeAPI.meter_set_rates`. -/
def meter_set_rates (lookup : SuffixMap) (meter_name index : PyStr)
    (rates : List PyStr) : Except PyExc RemoteOp :=
  match get_res_meter lookup "meter".toList meter_name with
  | .error e => .error e
  | .ok meter =>
    match pyInt10 index with
    | none => .error (.uin .plain "Bad format for index".toList)
    | some idx =>
      if (rates.length : Int) ≠ meter.rate_count then
        .error (.uin .plain (msgRateCount meter.rate_count rates.length))
      else
        match parse_rates rates with
        | .error e => .error e
        | .ok new_rates =>
          if meter.is_direct then
            .ok (.bm_mt_set_meter_rates (meter.binding.getD []) idx new_rates)
          else .ok (.bm_meter_set_rates meter.name idx new_rates)

/-- `RuntimeAPI.meter_get_rates` (up to its remote call; the rate printout
after the call is presentation only). -/
def meter_get_rates (lookup : SuffixMap) (meter_name index : PyStr) :
    Except PyExc RemoteOp :=
  match get_res_meter lookup "meter".toList meter_name with
  | .error e => .error e
  | .ok meter =>
    match pyInt10 index with
    | none => .error (.uin .plain "Bad format for index".toList)
    | some idx =>
      if meter.is_direct then .ok (.bm_mt_get_meter_rates (meter.binding.getD []) idx)
      else .ok (.bm_meter_get_rates meter.name idx)

/-! ## Port-set encoding -/

/-- The `"'%s' is not a valid %s number"` message. -/
def msgBadPort (p description : PyStr) : PyStr :=
  '\x27' :: p ++ ('\x27' :: " is not a valid ".toList) ++ description ++ " number".toList

/-- The `"Found duplicate %s number '%s'"` message. -/
def msgDupPort (description : PyStr) (p : Int) : PyStr :=
  "Found duplicate ".toList ++ description ++ " number \x27".toList ++ intLit p ++
    "\x27".toList

/-- The first loop of `ports_to_port_map_str`: parse every port token as an
integer and reject negatives. -/
def ports_parse (description : PyStr) : List PyStr → Except PyExc (List Int)
  | [] => .ok []
  | p :: rest =>
    match pyInt10 p with
    | none => .error (.uin .plain (msgBadPort p description))
    | some v =>
      if v < 0 then .error (.uin .plain (msgBadPort p description))
      else
        match ports_parse description rest with
        | .error e => .error e
        | .ok vs => .ok (v :: vs)

/-- The second loop of `ports_to_port_map_str`, over the sorted port list:
duplicate detection (`port_num == last_port_num - 1`) and bitmap
accumulation `port_map_str += "0" * (port_num - last_port_num) + "1"`. -/
def ports_loop (description : PyStr) : Int → PyStr → List Int → Except PyExc PyStr
  | _, acc, [] => .ok acc
  | last, acc, p :: rest =>
    if p = last - 1 then
      .error (.uin .plain (msgDupPort description p))
    else
      ports_loop description (p + 1)
        (acc ++ List.replicate (p - last).toNat '0' ++ ['1']) rest

/-- `RuntimeAPI.ports_to_port_map_str`: parse, sort ascending (Python
`list.sort()`; on integers any correct ascending sort computes the same
list), run the bitmap loop from `last_port_num = 0`, and reverse. -/
def ports_to_port_map_str (ports : List PyStr) (description : PyStr) :
    Except PyExc PyStr :=
  match ports_parse description ports with
  | .error e => .error e
  | .ok ports_int =>
    match ports_loop description 0 [] (List.insertionSort (· ≤ ·) ports_int) with
    | .error e => .error e
    | .ok port_map_str => .ok port_map_str.reverse

/-! ## The JSON configuration (the typed result of `json.loads`)

Enumerated string fields (`match_type`, `type`, meter `type`) are already
decoded to their enum values at this boundary, standing for the
`MatchType.from_str` / `TableType.from_str` / `MeterType.from_str` table
lookups on the raw JSON strings. -/

/-- An action's `runtime_data` entry. -/
structure JParam where
  name : PyStr
  bitwidth : Nat
  deriving DecidableEq, Repr

/-- An entry of the top-level `actions` array. -/
structure JAction where
  name : PyStr
  id_ : Int
  runtime_data : List JParam
  deriving DecidableEq, Repr

/-- An entry of a pipeline's `action_profiles` array; `has_selector` is the
presence of the `"selector"` key. -/
structure JActProf where
  name : PyStr
  id_ : Int
  has_selector : Bool
  deriving DecidableEq, Repr

/-- A match-key `target`: either a plain header-name string (the VALID
shape) or a two-element `[header, field]` reference. -/
inductive JTarget
  | single (hdr : PyStr)
  | pair (hdr fld : PyStr)
  deriving DecidableEq, Repr

/-- An entry of a table's `key` array. -/
structure JKey where
  match_type : MatchType
  target : JTarget
  deriving DecidableEq, Repr

/-- An entry of a pipeline's `tables` array.  `action_profile` is the new
JSON format's back-reference, `act_prof_name` the legacy field, and
`has_selector` the presence of the legacy `"selector"` key. -/
structure JTable where
  name : PyStr
  id_ : Int
  match_type : MatchType
  type_ : TableType
  support_timeout : Bool
  actions : List PyStr
  action_profile : Option PyStr
  act_prof_name : Option PyStr
  has_selector : Bool
  key : List JKey
  deriving DecidableEq, Repr

/-- An entry of the `pipelines` array; `action_profiles = none` stands for
the key being absent (the legacy JSON format). -/
structure JPipeline where
  action_profiles : Option (List JActProf)
  tables : List JTable
  deriving DecidableEq, Repr

/-- An entry of `meter_arrays`.  `binding` and `size` carry the fields the
schema supplies; the loader reads `binding` only for direct meters and
`size` only for non-direct ones. -/
structure JMeter where
  name : PyStr
  id_ : Int
  is_direct : Bool
  binding : PyStr
  size : Int
  type_ : MeterType
  rate_count : Int
  deriving DecidableEq, Repr

/-- An entry of `counter_arrays` (same `binding`/`size` convention). -/
structure JCounter where
  name : PyStr
  id_ : Int
  is_direct : Bool
  binding : PyStr
  size : Int
  deriving DecidableEq, Repr

/-- An entry of `register_arrays`. -/
structure JRegister where
  name : PyStr
  id_ : Int
  bitwidth : Int
  size : Int
  deriving DecidableEq, Repr

/-- An entry of `calculations`. -/
structure JCalc where
  name : PyStr
  algo : PyStr
  deriving DecidableEq, Repr

/-- An entry of `headers`. -/
structure JHeader where
  name : PyStr
  header_type : PyStr
  deriving DecidableEq, Repr

/-- An entry of `header_types`; each field is `(name, bitwidth)` (a possible
third signedness element is ignored by the loader). -/
structure JHeaderType where
  name : PyStr
  fields : List (PyStr × Nat)
  deriving DecidableEq, Repr

/-- The parsed JSON document.  Absent top-level keys default to empty lists
(`get_json_key`). -/
structure Config where
  actions : List JAction
  pipelines : List JPipeline
  meter_arrays : List JMeter
  counter_arrays : List JCounter
  register_arrays : List JRegister
  calculations : List JCalc
  headers : List JHeader
  header_types : List JHeaderType
  deriving DecidableEq, Repr

/-! ## The registry (the module-level resource maps) -/

/-- The process-wide resource maps, as insertion-ordered association lists
(Python dict assignment overwrites in place), plus `SUFFIX_LOOKUP_MAP`. -/
structure Registry where
  TABLES : List (PyStr × Table)
  ACTION_PROFS : List (PyStr × ActionProf)
  ACTIONS : List (PyStr × Action)
  METER_ARRAYS : List (PyStr × MeterArray)
  COUNTER_ARRAYS : List (PyStr × CounterArray)
  REGISTER_ARRAYS : List (PyStr × RegisterArray)
  CUSTOM_CRC_CALCS : List (PyStr × Nat)
  SUFFIX_LOOKUP_MAP : SuffixMap

/-- Python `dict[k] = v`: overwrite in place if the key exists, else append. -/
def dictInsert {α : Type} (m : List (PyStr × α)) (k : PyStr) (v : α) :
    List (PyStr × α) :=
  if m.any (fun e => decide (e.1 = k)) then
    m.map (fun e => if e.1 = k then (k, v) else e)
  else m ++ [(k, v)]

/-- Python `dict[k]` as an option. -/
def dictGet {α : Type} (m : List (PyStr × α)) (k : PyStr) : Option α :=
  (m.find? (fun e => decide (e.1 = k))).map Prod.snd

/-- The registry with every map empty. -/
def emptyRegistry : Registry :=
  { TABLES := [], ACTION_PROFS := [], ACTIONS := [], METER_ARRAYS := [],
    COUNTER_ARRAYS := [], REGISTER_ARRAYS := [], CUSTOM_CRC_CALCS := [],
    SUFFIX_LOOKUP_MAP := fun _ => none }

/-- `reset_config()`: clear all six resource maps, the custom-CRC map and the
suffix index. -/
def reset_config (_ : Registry) : Registry :=
  { TABLES := [], ACTION_PROFS := [], ACTIONS := [], METER_ARRAYS := [],
    COUNTER_ARRAYS := [], REGISTER_ARRAYS := [], CUSTOM_CRC_CALCS := [],
    SUFFIX_LOOKUP_MAP := fun _ => none }

/-- The fatal errors `load_json_str` can hit. -/
inductive LoadErr
  | jsonParse     -- json.loads raised
  | keyError      -- dict lookup of an undeclared name (e.g. ACTIONS[action])
  | assertFail    -- assert(0) / assert("act_prof_name" in j_table)
  | typeError     -- `target + "_valid"` on a list target
  deriving DecidableEq, Repr

/-! ## `load_json_str`: populating the registry -/

/-- The `actions` phase. -/
def load_actions (st : Registry) (l : List JAction) : Registry :=
  l.foldl (fun st j =>
    { st with ACTIONS := (dictInsert st.ACTIONS j.name
        ⟨j.name, j.id_, j.runtime_data.map (fun p => (p.name, p.bitwidth))⟩) }) st

/-- A pipeline's `action_profiles` phase (new JSON format). -/
def load_action_profs (st : Registry) (l : List JActProf) : Registry :=
  l.foldl (fun st j =>
    { st with ACTION_PROFS := (dictInsert st.ACTION_PROFS j.name
        ⟨j.name, j.id_, j.has_selector, [], 0⟩) }) st

/-- `get_header_type`: linear scan of `headers`; `assert(0)` on a miss. -/
def get_header_type (header_name : PyStr) (j_headers : List JHeader) :
    Except LoadErr PyStr :=
  match j_headers.find? (fun h => decide (h.name = header_name)) with
  | some h => .ok h.header_type
  | none => .error .assertFail

/-- `get_field_bitwidth`: scan every `header_types` entry with the matching
name for the field; `assert(0)` when no entry yields it. -/
def get_field_bitwidth (header_type field_name : PyStr)
    (j_header_types : List JHeaderType) : Except LoadErr Nat :=
  match ((j_header_types.filter (fun h => decide (h.name = header_type))).flatMap
      (fun h => h.fields)).find? (fun t => decide (t.1 = field_name)) with
  | some t => .ok t.2
  | none => .error .assertFail

/-- Resolve one `key` descriptor to a `(field_name, match_type, bitwidth)`
triple.  A VALID kind on a string target synthesizes `<header>_valid`
(1 bit); VALID on a list target is the Python `list + str` `TypeError`; a
`[hdr, "$valid$"]` target synthesizes `<hdr>_valid`; otherwise the bit width
is resolved through `headers` and `header_types`.  A non-VALID string target
is not a well-formed schema shape (the source would join the characters of
the string); it is not modelled further. -/
def resolve_key (cfg : Config) (j : JKey) : Except LoadErr (PyStr × MatchType × Nat) :=
  match j.match_type, j.target with
  | .VALID, .single hdr => .ok (hdr ++ "_valid".toList, .VALID, 1)
  | .VALID, .pair _ _ => .error .typeError
  | mt, .pair hdr fld =>
    if fld = "$valid$".toList then .ok (hdr ++ "_valid".toList, mt, 1)
    else
      match get_header_type hdr cfg.headers with
      | .error e => .error e
      | .ok htype =>
        match get_field_bitwidth htype fld cfg.header_types with
        | .error e => .error e
        | .ok bw => .ok (hdr ++ '.' :: fld, mt, bw)
  | _, .single _ => .error .typeError

/-- Resolve all key descriptors of a table, in order. -/
def resolve_keys (cfg : Config) : List JKey →
    Except LoadErr (List (PyStr × MatchType × Nat))
  | [] => .ok []
  | j :: rest =>
    match resolve_key cfg j with
    | .error e => .error e
    | .ok k =>
      match resolve_keys cfg rest with
      | .error e => .error e
      | .ok ks => .ok (k :: ks)

/-- The `table.actions[action] = ACTIONS[action]` loop: every listed action
must already be registered (otherwise `KeyError`); the key set of the
resulting dict is the listed names, first occurrence order. -/
def check_table_actions (acts : List (PyStr × Action)) : List PyStr →
    Except LoadErr Unit
  | [] => .ok ()
  | a :: rest =>
    match dictGet acts a with
    | none => .error .keyError
    | some _ => check_table_actions acts rest

/-- `dict.update` on key sets: add the new keys that are not yet present,
in order. -/
def updateKeys (old new : List PyStr) : List PyStr :=
  new.foldl (fun acc n => if acc.contains n then acc else acc ++ [n]) old

/-- Process one table of a pipeline: build the `Table`, resolve its action
profile (new-format back-reference, or a legacy `act_prof_name` synthesis),
resolve its keys, and register everything. -/
def load_table (cfg : Config) (st : Registry) (j : JTable) :
    Except LoadErr Registry :=
  match check_table_actions st.ACTIONS j.actions with
  | .error e => .error e
  | .ok _ =>
    let table_actions := updateKeys [] j.actions
    let indirect : Except LoadErr (Registry × Option PyStr) :=
      if j.type_ = .indirect ∨ j.type_ = .indirect_ws then
        match j.action_profile with
        | some apname =>
          match dictGet st.ACTION_PROFS apname with
          | none => .error .keyError
          | some prof =>
            .ok ({ st with ACTION_PROFS := (dictInsert st.ACTION_PROFS apname
                ⟨prof.name, prof.id_, prof.with_selection,
                  updateKeys prof.actions table_actions, prof.ref_cnt + 1⟩) },
              some apname)
        | none =>
          match j.act_prof_name with
          | none => .error .assertFail
          | some apn =>
            .ok ({ st with ACTION_PROFS := (dictInsert st.ACTION_PROFS apn
                ⟨apn, j.id_, j.has_selector, updateKeys [] table_actions, 1⟩) },
              some apn)
      else .ok (st, none)
    match indirect with
    | .error e => .error e
    | .ok (st2, apref) =>
      match resolve_keys cfg j.key with
      | .error e => .error e
      | .ok key =>
        .ok { st2 with TABLES := (dictInsert st2.TABLES j.name
          ⟨j.name, j.id_, j.match_type, j.type_, j.support_timeout,
            table_actions, key, apref⟩) }

/-- The `tables` loop of one pipeline. -/
def load_tables (cfg : Config) : Registry → List JTable → Except LoadErr Registry
  | st, [] => .ok st
  | st, j :: rest =>
    match load_table cfg st j with
    | .error e => .error e
    | .ok st2 => load_tables cfg st2 rest

/-- The `pipelines` loop: per pipeline, `action_profiles` first (when the
key is present), then `tables`. -/
def load_pipelines (cfg : Config) : Registry → List JPipeline →
    Except LoadErr Registry
  | st, [] => .ok st
  | st, jp :: rest =>
    let st1 :=
      match jp.action_profiles with
      | some profs => load_action_profs st profs
      | none => st
    match load_tables cfg st1 jp.tables with
    | .error e => .error e
    | .ok st2 => load_pipelines cfg st2 rest

/-- The `meter_arrays` phase. -/
def load_meters (st : Registry) (l : List JMeter) : Registry :=
  l.foldl (fun st j =>
    let m : MeterArray :=
      if j.is_direct then ⟨j.name, j.id_, j.type_, true, none, some j.binding, j.rate_count⟩
      else ⟨j.name, j.id_, j.type_, false, some j.size, none, j.rate_count⟩
    { st with METER_ARRAYS := dictInsert st.METER_ARRAYS j.name m }) st

/-- The `counter_arrays` phase. -/
def load_counters (st : Registry) (l : List JCounter) : Registry :=
  l.foldl (fun st j =>
    let c : CounterArray :=
      if j.is_direct then ⟨j.name, j.id_, true, none, some j.binding⟩
      else ⟨j.name, j.id_, false, some j.size, none⟩
    { st with COUNTER_ARRAYS := dictInsert st.COUNTER_ARRAYS j.name c }) st

/-- The `register_arrays` phase. -/
def load_registers (st : Registry) (l : List JRegister) : Registry :=
  l.foldl (fun st j =>
    { st with REGISTER_ARRAYS := (dictInsert st.REGISTER_ARRAYS j.name
        ⟨j.name, j.id_, j.bitwidth, j.size⟩) }) st

/-- The `calculations` phase: only `crc16_custom` / `crc32_custom` are kept. -/
def load_calcs (st : Registry) (l : List JCalc) : Registry :=
  l.foldl (fun st j =>
    if j.algo = "crc16_custom".toList then
      { st with CUSTOM_CRC_CALCS := dictInsert st.CUSTOM_CRC_CALCS j.name 16 }
    else if j.algo = "crc32_custom".toList then
      { st with CUSTOM_CRC_CALCS := dictInsert st.CUSTOM_CRC_CALCS j.name 32 }
    else st) st

/-! ## The suffix index -/

/-- The accumulation
`suffix = s if suffix is None else s + '.' + suffix` over the reversed
segments, collecting each intermediate suffix. -/
def sfxGo : List PyStr → Option PyStr → List PyStr
  | [], _ => []
  | s :: rest, none => s :: sfxGo rest (some s)
  | s :: rest, some acc => (s ++ '.' :: acc) :: sfxGo rest (some (s ++ '.' :: acc))

/-- All dot-delimited trailing segment combinations of a name, shortest
first (`a.b.c` yields `c`, `b.c`, `a.b.c`). -/
def suffixesOf (name : PyStr) : List PyStr :=
  sfxGo (pySplit ['.'] name).reverse none

/-- The suffix-map entries one resource contributes, in insertion order. -/
def suffixEntries (rt : ResType) (name : PyStr) (res : Resource) :
    List ((ResType × PyStr) × Resource) :=
  (suffixesOf name).map (fun sfx => ((rt, sfx), res))

/-- The full insertion sequence of the suffix-index build loop, iterating
the six maps in the source's order. -/
def allSuffixEntries (reg : Registry) : List ((ResType × PyStr) × Resource) :=
  (reg.TABLES.flatMap (fun p => suffixEntries .table p.1 (.table p.2))) ++
  (reg.ACTION_PROFS.flatMap (fun p => suffixEntries .action_prof p.1 (.actionProf p.2))) ++
  (reg.ACTIONS.flatMap (fun p => suffixEntries .action p.1 (.action p.2))) ++
  (reg.METER_ARRAYS.flatMap (fun p => suffixEntries .meter_array p.1 (.meterArr p.2))) ++
  (reg.COUNTER_ARRAYS.flatMap (fun p => suffixEntries .counter_array p.1 (.counterArr p.2))) ++
  (reg.REGISTER_ARRAYS.flatMap (fun p => suffixEntries .register_array p.1 (.registerArr p.2)))

/-- Point update of a suffix map (`SUFFIX_LOOKUP_MAP[key] = res`, or with
`none`, `del SUFFIX_LOOKUP_MAP[key]`). -/
def smUpdate (m : SuffixMap) (k : ResType × PyStr) (v : Option Resource) : SuffixMap :=
  fun k2 => if k2 = k then v else m k2

/-- The suffix-index build: insert every entry in order (later insertions
overwrite), count insertions per key (`suffix_count`), then delete every key
whose count exceeds one. -/
def buildSuffixLookup (reg : Registry) : SuffixMap :=
  let entries := allSuffixEntries reg
  let raw : SuffixMap := entries.foldl (fun m e => smUpdate m e.1 (some e.2)) (fun _ => none)
  fun k => if 1 < entries.countP (fun e => decide (e.1 = k)) then none else raw k

/-- Install the freshly built suffix index into a registry. -/
def withSuffix (st : Registry) : Registry :=
  { st with SUFFIX_LOOKUP_MAP := buildSuffixLookup st }

/-- `load_json_str`, with the prior registry state explicit and the result
of `json.loads` as an `Option Config` (`none` = the text is not JSON).
`reset_config()` runs before the parse, so a parse failure leaves the
registry empty.  On a fatal mid-populate error the Python globals hold a
partially-built state; no claim under verification depends on it, and it is
collapsed to the reset state here, with the error reported. -/
def load_json_str (st : Registry) (doc : Option Config) :
    Registry × Option LoadErr :=
  let st0 := reset_config st
  match doc with
  | none => (st0, some .jsonParse)
  | some cfg =>
    let st1 := load_actions st0 cfg.actions
    match load_pipelines cfg st1 cfg.pipelines with
    | .error e => (st0, some e)
    | .ok st2 =>
      let st3 := load_meters st2 cfg.meter_arrays
      let st4 := load_counters st3 cfg.counter_arrays
      let st5 := load_registers st4 cfg.register_arrays
      let st6 := load_calcs st5 cfg.calculations
      ({ st6 with SUFFIX_LOOKUP_MAP := buildSuffixLookup st6 }, none)

/-- The names registered under one resource kind. -/
def kindNames (reg : Registry) : ResType → List PyStr
  | .table => reg.TABLES.map Prod.fst
  | .action_prof => reg.ACTION_PROFS.map Prod.fst
  | .action => reg.ACTIONS.map Prod.fst
  | .meter_array => reg.METER_ARRAYS.map Prod.fst
  | .counter_array => reg.COUNTER_ARRAYS.map Prod.fst
  | .register_array => reg.REGISTER_ARRAYS.map Prod.fst

/-! ## Concrete example resources -/

/-- A non-direct counter array, as built from `counter_arrays` JSON. -/
def c4NonDirect : CounterArray := ⟨"cnt".toList, 0, false, some 16, none⟩

/-- A direct counter bound to table `tbl`. -/
def c4Direct : CounterArray := ⟨"dcnt".toList, 1, true, none, some "tbl".toList⟩

/-- A direct meter bound to table `tbl`, two rate levels. -/
def c4MeterD : MeterArray := ⟨"m".toList, 2, .bytes, true, none, some "tbl".toList, 2⟩

/-- A non-direct meter array. -/
def c4MeterND : MeterArray := ⟨"mn".toList, 3, .bytes, false, some 4, none, 2⟩

/-- A suffix map holding the four resources above under their full names. -/
def c4Lookup : SuffixMap := fun k =>
  if k = (ResType.counter_array, "cnt".toList) then some (.counterArr c4NonDirect)
  else if k = (ResType.counter_array, "dcnt".toList) then some (.counterArr c4Direct)
  else if k = (ResType.meter_array, "m".toList) then some (.meterArr c4MeterD)
  else if k = (ResType.meter_array, "mn".toList) then some (.meterArr c4MeterND)
  else none

/-- An action `a` with exactly one declared 8-bit parameter. -/
def c2Action : Action := ⟨"a".toList, 0, [("p".toList, 8)]⟩

/-- A table `t` whose action set contains `a`, with one EXACT 8-bit key. -/
def c2Table : Table :=
  ⟨"t".toList, 0, .EXACT, .simple, false, ["a".toList], [("f".toList, .EXACT, 8)], none⟩

/-- A table `u` whose action set is empty (so the globally-registered `a` is
not attached to it). -/
def c2TableU : Table := ⟨"u".toList, 1, .EXACT, .simple, false, [], [], none⟩

/-- Suffix map with the two tables and the action. -/
def c2Lookup : SuffixMap := fun k =>
  if k = (ResType.table, "t".toList) then some (.table c2Table)
  else if k = (ResType.table, "u".toList) then some (.table c2TableU)
  else if k = (ResType.action, "a".toList) then some (.action c2Action)
  else none

/-- Join with dots, the inverse reading of `splitChar '.'`. -/
def joinDots : List PyStr → PyStr
  | [] => []
  | [p] => p
  | p :: ps => p ++ '.' :: joinDots ps

/-- All six resource maps have duplicate-free key lists. -/
def KeysNodup (reg : Registry) : Prop :=
  (reg.TABLES.map Prod.fst).Nodup ∧
  (reg.ACTION_PROFS.map Prod.fst).Nodup ∧
  (reg.ACTIONS.map Prod.fst).Nodup ∧
  (reg.METER_ARRAYS.map Prod.fst).Nodup ∧
  (reg.COUNTER_ARRAYS.map Prod.fst).Nodup ∧
  (reg.REGISTER_ARRAYS.map Prod.fst).Nodup

/-- A minimal schema table entry with the given name: EXACT, simple, no
actions, no keys. -/
def c3Table (n : String) : JTable :=
  ⟨n.toList, 0, .EXACT, .simple, false, [], none, none, false, []⟩

/-- A config declaring the two same-kind resources `foo.bar.baz` and
`qux.bar.baz` of the claim's example. -/
def c3CfgPair : Config :=
  ⟨[], [⟨none, [c3Table "foo.bar.baz", c3Table "qux.bar.baz"]⟩],
    [], [], [], [], [], []⟩

/-- A config whose table `bar.baz` has a full name that is itself a suffix
of the other table name `foo.bar.baz`. -/
def c3CfgNested : Config :=
  ⟨[], [⟨none, [c3Table "bar.baz", c3Table "foo.bar.baz"]⟩],
    [], [], [], [], [], []⟩

/-! ## Bridging lemmas: digit loops vs `Nat.digits` -/

lemma bytesLEGo_eq : ∀ (fuel n : Nat), n ≤ fuel → bytesLEGo fuel n = Nat.digits 256 n := by
  intro fuel
  induction fuel with
  | zero => intro n h; interval_cases n; simp [bytesLEGo]
  | succ f ih =>
    intro n h
    match n with
    | 0 => simp [bytesLEGo]
    | m + 1 =>
      rw [bytesLEGo, ih ((m + 1) / 256) ?_, Nat.digits_def' (by norm_num) (Nat.succ_pos m)]
      have := Nat.div_lt_self (Nat.succ_pos m) (show 1 < 256 by norm_num)
      omega

lemma bytesLE_eq (n : Nat) : bytesLE n = Nat.digits 256 n :=
  bytesLEGo_eq n n le_rfl

lemma decDigitsGo_eq : ∀ (fuel n : Nat), n ≤ fuel →
    decDigitsGo fuel n = (Nat.digits 10 n).map Nat.digitChar := by
  intro fuel
  induction fuel with
  | zero => intro n h; interval_cases n; simp [decDigitsGo]
  | succ f ih =>
    intro n h
    match n with
    | 0 => simp [decDigitsGo]
    | m + 1 =>
      rw [decDigitsGo, ih ((m + 1) / 10) ?_, Nat.digits_def' (by norm_num) (Nat.succ_pos m)]
      · simp
      · have := Nat.div_lt_self (Nat.succ_pos m) (show 1 < 10 by norm_num)
        omega

lemma decLit_of_ne_zero {n : Nat} (h : n ≠ 0) :
    decLit n = ((Nat.digits 10 n).map Nat.digitChar).reverse := by
  rw [decLit, if_neg h, decDigitsGo_eq n n le_rfl]

lemma digitVal_digitChar {d : Nat} (h : d < 10) : digitVal (Nat.digitChar d) = some d := by
  interval_cases d <;> decide

lemma digitChar_ne_of_lt {d : Nat} (h : d < 10) :
    Nat.digitChar d ≠ '.' ∧ Nat.digitChar d ≠ ':' ∧ Nat.digitChar d ≠ '-' ∧
      Nat.digitChar d ≠ '+' := by
  interval_cases d <;> decide

lemma digitChar_ne_zero_char {d : Nat} (h : d < 10) (hd : d ≠ 0) :
    Nat.digitChar d ≠ '0' := by
  interval_cases d <;> simp_all <;> decide

lemma mem_decLit {n : Nat} {c : Char} (h : c ∈ decLit n) :
    ∃ d, d < 10 ∧ c = Nat.digitChar d := by
  by_cases hn : n = 0
  · subst hn
    have hc : c = '0' := by simpa [decLit] using h
    exact ⟨0, by norm_num, by rw [hc]; decide⟩
  · rw [decLit_of_ne_zero hn, List.mem_reverse, List.mem_map] at h
    obtain ⟨d, hd, hc⟩ := h
    exact ⟨d, Nat.digits_lt_base (by norm_num) hd, hc.symm⟩

lemma contains_eq_false {l : PyStr} {c : Char} (h : c ∉ l) : l.contains c = false := by
  induction l with
  | nil => rfl
  | cons x xs ih =>
    simp only [List.mem_cons, not_or] at h
    simp only [List.contains_cons, ih h.2, Bool.or_false]
    rw [beq_eq_false_iff_ne]
    exact h.1

lemma decLit_contains_dot (n : Nat) : (decLit n).contains '.' = false := by
  refine contains_eq_false (fun h => ?_)
  obtain ⟨d, hd, hc⟩ := mem_decLit h
  exact (digitChar_ne_of_lt hd).1 hc.symm

lemma decLit_contains_colon (n : Nat) : (decLit n).contains ':' = false := by
  refine contains_eq_false (fun h => ?_)
  obtain ⟨d, hd, hc⟩ := mem_decLit h
  exact (digitChar_ne_of_lt hd).2.1 hc.symm

lemma readDigitsGo_append (dv : Char → Option Nat) (b : Nat) :
    ∀ (xs ys : PyStr) (a : Nat),
      readDigitsGo dv b (xs ++ ys) a =
        match readDigitsGo dv b xs a with
        | some a2 => readDigitsGo dv b ys a2
        | none => none := by
  intro xs
  induction xs with
  | nil => intro ys a; rfl
  | cons x xs ih =>
    intro ys a
    simp only [List.cons_append, readDigitsGo]
    cases dv x with
    | some d => exact ih ys _
    | none => rfl

lemma readDigitsGo_rev_digits :
    ∀ (ds : List Nat) (a : Nat), (∀ d ∈ ds, d < 10) →
      readDigitsGo digitVal 10 ((ds.map Nat.digitChar).reverse) a =
        some (a * 10 ^ ds.length + Nat.ofDigits 10 ds) := by
  intro ds
  induction ds with
  | nil => intro a _; simp [readDigitsGo, Nat.ofDigits_nil]
  | cons d tl ih =>
    intro a h
    have hd : d < 10 := h d (List.mem_cons_self d tl)
    rw [List.map_cons, List.reverse_cons,
      readDigitsGo_append, ih a (fun x hx => h x (List.mem_cons_of_mem d hx))]
    simp only [readDigitsGo, digitVal_digitChar hd, Nat.ofDigits_cons, List.length_cons,
      pow_succ]
    congr 1
    ring

lemma decLit_ne_nil (n : Nat) : decLit n ≠ [] := by
  by_cases h : n = 0
  · subst h; decide
  · rw [decLit_of_ne_zero h]
    have hne : Nat.digits 10 n ≠ [] := Nat.digits_ne_nil_iff_ne_zero.mpr h
    simp only [ne_eq, List.reverse_eq_nil_iff, List.map_eq_nil_iff]
    exact hne

lemma readDigitsGo_decLit {n : Nat} (h : n ≠ 0) :
    readDigitsGo digitVal 10 (decLit n) 0 = some n := by
  rw [decLit_of_ne_zero h,
    readDigitsGo_rev_digits _ 0 (fun d hd => Nat.digits_lt_base (by norm_num) hd)]
  simp [Nat.ofDigits_digits]

lemma readDigits_eq_go {s : PyStr} (h : s ≠ []) :
    readDigits digitVal 10 s = readDigitsGo digitVal 10 s 0 := by
  obtain ⟨c, cs, rfl⟩ := List.exists_cons_of_ne_nil h
  rfl

lemma decLit_head_digit {n : Nat} (h : n ≠ 0) :
    ∃ c cs, decLit n = c :: cs ∧ c ≠ '0' ∧ c ≠ '-' ∧ c ≠ '+' := by
  have hne : Nat.digits 10 n ≠ [] := Nat.digits_ne_nil_iff_ne_zero.mpr h
  obtain ⟨c, cs, hcs⟩ := List.exists_cons_of_ne_nil (decLit_ne_nil n)
  rw [decLit_of_ne_zero h] at hcs
  have hhead : ((Nat.digits 10 n).map Nat.digitChar).reverse.head? = some c := by
    rw [hcs]; rfl
  rw [List.head?_reverse, List.getLast?_map,
    List.getLast?_eq_getLast _ hne] at hhead
  set d := (Nat.digits 10 n).getLast hne with hd
  have hdlt : d < 10 := Nat.digits_lt_base (by norm_num) (List.getLast_mem hne)
  have hdne : d ≠ 0 := Nat.getLast_digit_ne_zero 10 h
  have hcval : c = Nat.digitChar d := by
    simpa using hhead.symm
  refine ⟨c, cs, by rw [decLit_of_ne_zero h, hcs], ?_, ?_, ?_⟩
  · rw [hcval]; exact digitChar_ne_zero_char hdlt hdne
  · rw [hcval]; exact (digitChar_ne_of_lt hdlt).2.2.1
  · rw [hcval]; exact (digitChar_ne_of_lt hdlt).2.2.2

lemma pySign_decLit (n : Nat) : pySign (decLit n) = (false, decLit n) := by
  by_cases h : n = 0
  · subst h; decide
  · obtain ⟨c, cs, hcs, _, hcm, hcp⟩ := decLit_head_digit h
    rw [hcs, pySign, if_neg hcm, if_neg hcp]

lemma pyInt0_decLit (n : Nat) : pyInt0 (decLit n) = some (n : Int) := by
  by_cases h : n = 0
  · subst h; decide
  · obtain ⟨c, cs, hcs, hc0, hcm, hcp⟩ := decLit_head_digit h
    have hread : readDigits digitVal 10 (c :: cs) = some n := by
      rw [← hcs, readDigits_eq_go (decLit_ne_nil n), readDigitsGo_decLit h]
    have hsign : pySign (c :: cs) = (false, c :: cs) := by
      rw [pySign, if_neg hcm, if_neg hcp]
    rw [pyInt0, hcs, hsign]
    simp only [if_neg hc0, hread, Option.map_some, Option.map_some']
    rfl

lemma pyInt0_neg_decLit {n : Nat} (h : n ≠ 0) :
    pyInt0 ('-' :: decLit n) = some (-(n : Int)) := by
  obtain ⟨c, cs, hcs, hc0, hcm, hcp⟩ := decLit_head_digit h
  have hread : readDigits digitVal 10 (c :: cs) = some n := by
    rw [← hcs, readDigits_eq_go (decLit_ne_nil n), readDigitsGo_decLit h]
  have hsign : pySign ('-' :: decLit n) = (true, decLit n) := by
    rw [pySign, if_pos rfl]
  rw [pyInt0, hsign, hcs]
  simp only [if_neg hc0, hread, Option.map_some, Option.map_some']
  rfl

lemma pyInt10_decLit (n : Nat) : pyInt10 (decLit n) = some (n : Int) := by
  by_cases h : n = 0
  · subst h; decide
  · have hread : readDigits digitVal 10 (decLit n) = some n := by
      rw [readDigits_eq_go (decLit_ne_nil n), readDigitsGo_decLit h]
    rw [pyInt10, pySign_decLit]
    simp only [hread, Option.map_some, Option.map_some']
    rfl

/-! ## Bridging lemmas: `int_to_bytes` -/

lemma digits256_len_le_iff {v k : Nat} : (Nat.digits 256 v).length ≤ k ↔ v < 256 ^ k := by
  by_cases hv : v = 0
  · subst hv
    simp only [Nat.digits_zero, List.length_nil]
    exact iff_of_true (Nat.zero_le k) (Nat.pos_pow_of_pos k (by norm_num))
  · constructor
    · intro hlen
      calc v < 256 ^ (Nat.digits 256 v).length := Nat.lt_base_pow_length_digits (by norm_num)
        _ ≤ 256 ^ k := Nat.pow_le_pow_right (by norm_num) hlen
    · intro hlt
      rw [Nat.digits_len 256 v (by norm_num) hv]
      have := (Nat.lt_pow_iff_log_lt (show (1:Nat) < 256 by norm_num) hv).mp hlt
      omega

lemma decode_fold_zeros : ∀ (k : Nat) (l : List Int),
    List.foldl (fun a b => a * 256 + b) 0 (List.replicate k 0 ++ l) =
      List.foldl (fun a b => a * 256 + b) 0 l := by
  intro k
  induction k with
  | zero => intro l; rfl
  | succ m ih => intro l; simpa using ih l

lemma decode_fold_rev_digits :
    ∀ (ds : List Nat) (a : Int),
      List.foldl (fun x b => x * 256 + b) a ((ds.map Int.ofNat).reverse) =
        a * 256 ^ ds.length + Nat.ofDigits (256 : ℤ) ds := by
  intro ds
  induction ds with
  | nil =>
    intro a
    simp [Nat.ofDigits]
  | cons d tl ih =>
    intro a
    rw [List.map_cons, List.reverse_cons, List.foldl_append, ih a]
    simp only [List.foldl, Nat.ofDigits, List.length_cons, pow_succ, Int.ofNat_eq_natCast]
    ring

lemma ofDigits_int_digits (v : Nat) :
    Nat.ofDigits (256 : ℤ) (Nat.digits 256 v) = (v : Int) := by
  have h := Nat.coe_int_ofDigits 256 (Nat.digits 256 v)
  rw [Nat.ofDigits_digits] at h
  exact_mod_cast h.symm

lemma int_to_bytes_ds (v : Nat) :
    (if (0 : Int) < (v : Int) then (bytesLE (Int.toNat (v : Int))).map Int.ofNat else []) =
      (Nat.digits 256 v).map Int.ofNat := by
  by_cases hv : v = 0
  · subst hv; simp
  · rw [if_pos (by exact_mod_cast Nat.pos_of_ne_zero hv)]
    simp [bytesLE_eq]

lemma int_to_bytes_of_len_le {v num : Nat} (hlen : (Nat.digits 256 v).length ≤ num) :
    int_to_bytes (v : Int) (num : Int) =
      .ok (((Nat.digits 256 v).map Int.ofNat ++
        List.replicate (num - (Nat.digits 256 v).length) 0).reverse) := by
  simp only [int_to_bytes, int_to_bytes_ds, List.length_map]
  rw [if_neg (by omega)]
  have ht : ((num : Int) - ((Nat.digits 256 v).length : Int)).toNat =
      num - (Nat.digits 256 v).length := by omega
  rw [ht]

lemma int_to_bytes_spec_ok {v num : Nat} (h : v < 256 ^ num) :
    ∃ bs, int_to_bytes (v : Int) (num : Int) = .ok bs ∧ bs.length = num ∧
      decode_bytes bs = (v : Int) := by
  have hlen : (Nat.digits 256 v).length ≤ num := digits256_len_le_iff.mpr h
  refine ⟨((Nat.digits 256 v).map Int.ofNat ++
      List.replicate (num - (Nat.digits 256 v).length) 0).reverse,
    int_to_bytes_of_len_le hlen, ?_, ?_⟩
  · simp only [List.length_reverse, List.length_append, List.length_map,
      List.length_replicate]
    omega
  · rw [decode_bytes, List.reverse_append, List.reverse_replicate,
      decode_fold_zeros, decode_fold_rev_digits]
    simp only [zero_mul, zero_add]
    exact ofDigits_int_digits v

lemma int_to_bytes_spec_err {v num : Nat} (h : 256 ^ num ≤ v) :
    int_to_bytes (v : Int) (num : Int) = .error (.uin .badParam msgTooLarge) := by
  have hpow : 0 < 256 ^ num := Nat.pos_pow_of_pos num (by norm_num)
  have hv : v ≠ 0 := by omega
  have hlen : num < (Nat.digits 256 v).length := by
    by_contra hc
    push_neg at hc
    exact absurd (digits256_len_le_iff.mp hc) (by omega)
  simp only [int_to_bytes, int_to_bytes_ds, List.length_map]
  rw [if_pos (by omega)]

/-! ## Bridging lemmas: `parse_param` dispatch -/

lemma ipv4_explore {s : PyStr} (h : s.contains '.' = false) :
    ipv4Addr_to_bytes s = .error .formatExplore := by
  have hnc : ¬ (s.contains '.' = true) := by rw [h]; simp
  rw [ipv4Addr_to_bytes, if_pos hnc]

lemma mac_explore {s : PyStr} (h : s.contains ':' = false) :
    macAddr_to_bytes s = .error .formatExplore := by
  have hnc : ¬ (s.contains ':' = true) := by rw [h]; simp
  rw [macAddr_to_bytes, if_pos hnc]

lemma ipv6_explore {s : PyStr} (h : s.contains ':' = false) :
    ipv6Addr_to_bytes s = .error .formatExplore := by
  have hnc : ¬ (s.contains ':' = true) := by rw [h]; simp
  rw [ipv6Addr_to_bytes, if_pos hnc]

lemma parse_param_32_explore {s : PyStr} (h : s.contains '.' = false) :
    parse_param s 32 = parse_param_int s 32 := by
  rw [parse_param, if_pos rfl, ipv4_explore h]

lemma parse_param_48_explore {s : PyStr} (h : s.contains ':' = false) :
    parse_param s 48 = parse_param_int s 48 := by
  rw [parse_param, if_neg (by norm_num), if_pos rfl, mac_explore h]

lemma parse_param_128_explore {s : PyStr} (h : s.contains ':' = false) :
    parse_param s 128 = parse_param_int s 128 := by
  rw [parse_param, if_neg (by norm_num), if_neg (by norm_num), if_pos rfl, ipv6_explore h]

lemma parse_param_other {s : PyStr} {bw : Nat} (h32 : bw ≠ 32) (h48 : bw ≠ 48)
    (h128 : bw ≠ 128) : parse_param s bw = parse_param_int s bw := by
  rw [parse_param, if_neg h32, if_neg h48, if_neg h128]

/-- Every width in the C1 list dispatches the decimal literal of a natural
number to the generic integer tail of `parse_param`. -/
lemma parse_param_decLit_dispatch (v : Nat) {bw : Nat}
    (hbw : bw ∈ [8, 16, 24, 32, 48, 64, 128]) :
    parse_param (decLit v) bw = parse_param_int (decLit v) bw := by
  have hdot := decLit_contains_dot v
  have hcolon := decLit_contains_colon v
  fin_cases hbw
  · exact parse_param_other (by norm_num) (by norm_num) (by norm_num)
  · exact parse_param_other (by norm_num) (by norm_num) (by norm_num)
  · exact parse_param_other (by norm_num) (by norm_num) (by norm_num)
  · exact parse_param_32_explore hdot
  · exact parse_param_48_explore hcolon
  · exact parse_param_other (by norm_num) (by norm_num) (by norm_num)
  · exact parse_param_128_explore hcolon

/-! ## C1 -/

/-- C1.  For every bit width in {8, 16, 24, 32, 48, 64, 128} and every
natural `v < 2^bit_width`, `parse_param` on the decimal literal of `v`
produces a big-endian byte sequence of length exactly `ceil(bit_width/8)`
(never truncated, zero-padded on the left) that decodes back to `v`; and
whenever `v` needs more than `ceil(bit_width/8)` base-256 digits — that is,
`v ≥ 2^bit_width` — it fails with the "Parameter is too large"
`UIn_BadParamError` instead of truncating. -/
theorem C1_parse_param_roundtrip :
    ∀ bw ∈ [8, 16, 24, 32, 48, 64, 128], ∀ v : Nat,
      (v < 2 ^ bw →
        ∃ bs, parse_param (decLit v) bw = .ok bs ∧ bs.length = (bw + 7) / 8 ∧
          decode_bytes bs = (v : Int)) ∧
      (2 ^ bw ≤ v →
        parse_param (decLit v) bw = .error (.uin .badParam msgTooLarge)) := by
  intro bw hbw v
  rw [parse_param_decLit_dispatch v hbw, parse_param_int, pyInt0_decLit]
  have hpow : (256 : Nat) ^ ((bw + 7) / 8) = 2 ^ bw := by
    fin_cases hbw <;> norm_num
  constructor
  · intro hv
    exact int_to_bytes_spec_ok (show v < 256 ^ ((bw + 7) / 8) by rw [hpow]; exact hv)
  · intro hv
    exact int_to_bytes_spec_err (show 256 ^ ((bw + 7) / 8) ≤ v by rw [hpow]; exact hv)

/-- Witness for C1 at `bw = 16`: `v = 300` is in range and round-trips to a
two-byte sequence, and `v = 70000 ≥ 2^16` is rejected as too large. -/
theorem C1_parse_param_roundtrip_witness :
    (16 ∈ [8, 16, 24, 32, 48, 64, 128] ∧ 300 < 2 ^ 16 ∧ 2 ^ 16 ≤ 70000) ∧
      (∃ bs, parse_param (decLit 300) 16 = .ok bs ∧ bs.length = (16 + 7) / 8 ∧
        decode_bytes bs = (300 : Int)) ∧
      parse_param (decLit 70000) 16 = .error (.uin .badParam msgTooLarge) :=
  ⟨by decide,
    (C1_parse_param_roundtrip 16 (by decide) 300).1 (by decide),
    (C1_parse_param_roundtrip 16 (by decide) 70000).2 (by decide)⟩

/-! ## C8 and C10 -/

lemma pyMapList_eq_none {α β : Type} (f : α → Option β) :
    ∀ {l : List α}, (∃ p ∈ l, f p = none) → pyMapList f l = none := by
  intro l
  induction l with
  | nil => rintro ⟨p, hp, _⟩; cases hp
  | cons x xs ih =>
    rintro ⟨p, hp, hf⟩
    rcases List.mem_cons.mp hp with h | h
    · rw [pyMapList, ← h, hf]
    · rw [pyMapList]
      cases hfx : f x with
      | none => rfl
      | some y => rw [ih ⟨p, h, hf⟩]; rfl

/-- C8.  At bit width 32, `parse_param` tries IPv4 parsing first and falls
back to the generic integer parse exactly when the input has no `.`; an
input with a `.` that does not split into exactly four dot-separated
integer octets fails with the "Invalid IPv4 address" `UIn_BadParamError`
rather than falling back; and `"10.0.0.1"` encodes to `[10, 0, 0, 1]`. -/
theorem C8_parse_param_ipv4_dispatch :
    (∀ s : PyStr, s.contains '.' = false → parse_param s 32 = parse_param_int s 32) ∧
    (∀ s : PyStr, s.contains '.' = true →
      ((pySplit ['.'] s).length ≠ 4 ∨ ∃ p ∈ pySplit ['.'] s, pyInt10 p = none) →
      parse_param s 32 = .error (.uin .badParam "Invalid IPv4 address".toList)) ∧
    parse_param "10.0.0.1".toList 32 = .ok [10, 0, 0, 1] := by
  refine ⟨fun s h => parse_param_32_explore h, fun s h hbad => ?_, by decide⟩
  have hnn : ¬ ¬ (s.contains '.' = true) := fun hc => hc h
  have h4 : ipv4Addr_to_bytes s = .error (.uin .badIPv4 []) := by
    rw [ipv4Addr_to_bytes, if_neg hnn]
    by_cases hlen : (pySplit ['.'] s).length ≠ 4
    · rw [if_pos hlen]
    · rw [if_neg hlen]
      push_neg at hlen
      rcases hbad with hl | hex
      · exact absurd hlen hl
      · rw [pyMapList_eq_none pyInt10 hex]
  rw [parse_param, if_pos rfl, h4]

/-- Witness for C8: the fallback clause at `"77"` (no dot) and the failure
clause at `"10.0.1"` (a dot, but only three octets). -/
theorem C8_parse_param_ipv4_dispatch_witness :
    ("77".toList.contains '.' = false ∧
      parse_param "77".toList 32 = parse_param_int "77".toList 32) ∧
    ("10.0.1".toList.contains '.' = true ∧
      parse_param "10.0.1".toList 32 =
        .error (.uin .badParam "Invalid IPv4 address".toList)) :=
  ⟨⟨by decide, C8_parse_param_ipv4_dispatch.1 "77".toList (by decide)⟩,
    ⟨by decide, C8_parse_param_ipv4_dispatch.2.1 "10.0.1".toList (by decide)
      (Or.inl (by decide))⟩⟩

lemma int_to_bytes_nonpos {i : Int} (h : i ≤ 0) (num : Nat) :
    int_to_bytes i (num : Int) = .ok (List.replicate num 0) := by
  simp only [int_to_bytes, if_neg (show ¬ (0 : Int) < i by omega), List.length_nil,
    List.nil_append]
  rw [if_neg (by simp)]
  simp

/-- C10.  For every positive `v` and every bit width, `parse_param` on the
negative decimal literal `-v` does not fail: it returns exactly
`ceil(bit_width/8)` zero bytes, silently encoding every negative integer
parameter as the value 0 (no rejection, no two's complement). -/
theorem C10_negative_literal_encodes_zero :
    ∀ v : Nat, 0 < v → ∀ bw : Nat,
      parse_param ('-' :: decLit v) bw = .ok (List.replicate ((bw + 7) / 8) 0) := by
  intro v hv bw
  have hdot : ('-' :: decLit v).contains '.' = false := by
    refine contains_eq_false fun h => ?_
    rcases List.mem_cons.mp h with h | h
    · exact absurd h (by decide)
    · obtain ⟨d, hd, hc⟩ := mem_decLit h
      exact (digitChar_ne_of_lt hd).1 hc.symm
  have hcolon : ('-' :: decLit v).contains ':' = false := by
    refine contains_eq_false fun h => ?_
    rcases List.mem_cons.mp h with h | h
    · exact absurd h (by decide)
    · obtain ⟨d, hd, hc⟩ := mem_decLit h
      exact (digitChar_ne_of_lt hd).2.1 hc.symm
  have hred : parse_param ('-' :: decLit v) bw = parse_param_int ('-' :: decLit v) bw := by
    by_cases h32 : bw = 32
    · subst h32; exact parse_param_32_explore hdot
    by_cases h48 : bw = 48
    · subst h48; exact parse_param_48_explore hcolon
    by_cases h128 : bw = 128
    · subst h128; exact parse_param_128_explore hcolon
    exact parse_param_other h32 h48 h128
  rw [hred, parse_param_int, pyInt0_neg_decLit (by omega)]
  exact int_to_bytes_nonpos (by omega) ((bw + 7) / 8)

/-- Witness for C10 at `v = 1`, `bw = 16`: `parse_param "-1" 16` yields two
zero bytes. -/
theorem C10_negative_literal_encodes_zero_witness :
    0 < 1 ∧ parse_param ('-' :: decLit 1) 16 = .ok (List.replicate ((16 + 7) / 8) 0) :=
  ⟨by decide, C10_negative_literal_encodes_zero 1 (by decide) 16⟩

/-! ## C7 -/

/-- C7.  For a RANGE-kind match field: splitting on `->` into anything other
than a start and an end (in particular, when the separator is absent) fails
with a MatchKeyError; otherwise both sides are encoded at the field's bit
width, a length mismatch of the encodings fails, an encoded start strictly
greater (lexicographically) than the encoded end fails, and a
non-decreasing range succeeds; concretely `"3->5"` succeeds at width 8 and
`"5->3"` fails. -/
theorem C7_range_field_encoding :
    (∀ (bw : Nat) (field : PyStr), (pySplit ['-', '>'] field).length ≠ 2 →
      parse_match_key_field .RANGE bw field =
        .error (.uin .matchKey ("Invalid range value ".toList ++ field ++
          (", use \x27->\x27 to separate range start and range end").toList))) ∧
    (∀ (bw : Nat) (field s0 e0 : PyStr), pySplit ['-', '>'] field = [s0, e0] →
      ∀ ks ke : List Int,
        mk_parse_param_ s0 bw = .ok ks → bytes_to_string ks = .ok ks →
        mk_parse_param_ e0 bw = .ok ke → bytes_to_string ke = .ok ke →
        (ks.length ≠ ke.length →
          parse_match_key_field .RANGE bw field =
            .error (.uin .matchKey
              ("start and end have different lengths in expression ".toList ++ field))) ∧
        (ks.length = ke.length →
          (pyStrLt ke ks = true →
            parse_match_key_field .RANGE bw field =
              .error (.uin .matchKey
                ("start is less than end in expression ".toList ++ field))) ∧
          (pyStrLt ke ks = false →
            parse_match_key_field .RANGE bw field = .ok (.range ks ke)))) ∧
    parse_match_key_field .RANGE 8 "3->5".toList = .ok (.range [3] [5]) ∧
    parse_match_key_field .RANGE 8 "5->3".toList =
      .error (.uin .matchKey
        ("start is less than end in expression ".toList ++ "5->3".toList)) := by
  refine ⟨?_, ?_, by decide, by decide⟩
  · intro bw field hsplit
    rw [parse_match_key_field]
    match hs : pySplit ['-', '>'] field with
    | [] => rfl
    | [_] => rfl
    | [a, b] => rw [hs] at hsplit; simp at hsplit
    | _ :: _ :: _ :: _ => rfl
  · intro bw field s0 e0 hsplit ks ke hps hbs hpe hbe
    simp only [parse_match_key_field, hsplit, hps, hbs, hpe, hbe]
    constructor
    · intro hne
      rw [if_pos hne]
    · intro heq
      rw [if_neg (by omega)]
      constructor
      · intro hlt; rw [if_pos hlt]
      · intro hge; rw [if_neg (by simp [hge])]

/-- Witness for C7: clause 1 at `"35"` (no separator), clause 2 at `"5->3"`
(equal lengths, start lexicographically greater than end). -/
theorem C7_range_field_encoding_witness :
    ((pySplit ['-', '>'] "35".toList).length ≠ 2 ∧
      parse_match_key_field .RANGE 8 "35".toList =
        .error (.uin .matchKey ("Invalid range value ".toList ++ "35".toList ++
          (", use \x27->\x27 to separate range start and range end").toList))) ∧
    (pySplit ['-', '>'] "5->3".toList = ["5".toList, "3".toList] ∧
      parse_match_key_field .RANGE 8 "5->3".toList =
        .error (.uin .matchKey
          ("start is less than end in expression ".toList ++ "5->3".toList))) :=
  ⟨⟨by decide, C7_range_field_encoding.1 8 "35".toList (by decide)⟩,
    ⟨by decide,
      (((C7_range_field_encoding.2.1 8 "5->3".toList "5".toList "3".toList (by decide)
        [5] [3] (by decide) (by decide) (by decide) (by decide)).2 (by decide)).1
        (by decide))⟩⟩

/-! ## C6 -/

/-- C6 counterexample.  A malformed VALID-kind match field literal makes
`parse_match_key` raise a builtin `ValueError` (from `bool(int(field))`),
which is not among the error kinds `handle_bad_input` catches — so this
input makes an error escape the command wrapper, refuting the claim that no
input can. -/
theorem C6_counterexample_valid_literal_escapes :
    parse_match_key
        ⟨"t".toList, 0, .VALID, .simple, false, [], [("f".toList, .VALID, 1)], none⟩
        ["abc".toList] = .error .valueError ∧
      wrapperCatches .valueError = false := by decide

/-- C6 (amended).  Every `UIn_Error`-family error and every enumerated
remote-operation error is caught by the command wrapper (the multicast
family by the mc variant); a match-field literal rejected by `parse_param`
yields a caught `MatchKeyError` for the EXACT kind, and a missing
`/` / `&&&` / `->` separator yields a caught `MatchKeyError` for the LPM /
TERNARY / RANGE kinds; but a non-integer VALID literal, and a non-integer
LPM length part, raise a builtin `ValueError` that the wrapper does not
catch. -/
theorem C6_wrapper_coverage :
    (∀ k m, wrapperCatches (.uin k m) = true) ∧
    (∀ rk c, rk ≠ RemoteKind.mcOp → wrapperCatches (.remote rk c) = true) ∧
    (∀ rk c, wrapperCatchesMc (.remote rk c) = true) ∧
    (∀ (bw : Nat) (f m : PyStr), parse_param f bw = .error (.uin .badParam m) →
      parse_match_key_field .EXACT bw f =
        .error (.uin .matchKey ("Error while parsing ".toList ++ f ++ " - ".toList ++ m)) ∧
      wrapperCatches
        (.uin .matchKey ("Error while parsing ".toList ++ f ++ " - ".toList ++ m)) = true) ∧
    (∀ (bw : Nat) (f : PyStr), (pySplit ['/'] f).length ≠ 2 →
      parse_match_key_field .LPM bw f =
        .error (.uin .matchKey ("Invalid LPM value ".toList ++ f ++
          (", use \x27/\x27 to separate prefix and length").toList)) ∧
      wrapperCatches (.uin .matchKey ("Invalid LPM value ".toList ++ f ++
        (", use \x27/\x27 to separate prefix and length").toList)) = true) ∧
    (∀ (bw : Nat) (f : PyStr), (pySplit ['&', '&', '&'] f).length ≠ 2 →
      parse_match_key_field .TERNARY bw f =
        .error (.uin .matchKey ("Invalid ternary value ".toList ++ f ++
          (", use \x27&&&\x27 to separate key and mask").toList)) ∧
      wrapperCatches (.uin .matchKey ("Invalid ternary value ".toList ++ f ++
        (", use \x27&&&\x27 to separate key and mask").toList)) = true) ∧
    (∀ (bw : Nat) (f : PyStr), (pySplit ['-', '>'] f).length ≠ 2 →
      parse_match_key_field .RANGE bw f =
        .error (.uin .matchKey ("Invalid range value ".toList ++ f ++
          (", use \x27->\x27 to separate range start and range end").toList)) ∧
      wrapperCatches (.uin .matchKey ("Invalid range value ".toList ++ f ++
        (", use \x27->\x27 to separate range start and range end").toList)) = true) ∧
    (∀ (bw : Nat) (f : PyStr), pyInt10 f = none →
      parse_match_key_field .VALID bw f = .error .valueError ∧
      wrapperCatches .valueError = false) ∧
    (∀ (bw : Nat) (f pfx plen : PyStr), pySplit ['/'] f = [pfx, plen] →
      ∀ k : List Int, mk_parse_param_ pfx bw = .ok k → bytes_to_string k = .ok k →
        pyInt10 plen = none →
        parse_match_key_field .LPM bw f = .error .valueError ∧
        wrapperCatches .valueError = false) := by
  refine ⟨fun k m => rfl, ?_, ?_, ?_, ?_, ?_, ?_, ?_, ?_⟩
  · intro rk c h
    cases rk <;> first | rfl | exact absurd rfl h
  · intro rk c
    cases rk <;> rfl
  · intro bw f m h
    refine ⟨?_, rfl⟩
    simp only [parse_match_key_field, mk_parse_param_, h]
  · intro bw f hsplit
    refine ⟨?_, rfl⟩
    rw [parse_match_key_field]
    match hs : pySplit ['/'] f with
    | [] => rfl
    | [_] => rfl
    | [a, b] => rw [hs] at hsplit; simp at hsplit
    | _ :: _ :: _ :: _ => rfl
  · intro bw f hsplit
    refine ⟨?_, rfl⟩
    rw [parse_match_key_field]
    match hs : pySplit ['&', '&', '&'] f with
    | [] => rfl
    | [_] => rfl
    | [a, b] => rw [hs] at hsplit; simp at hsplit
    | _ :: _ :: _ :: _ => rfl
  · intro bw f hsplit
    refine ⟨?_, rfl⟩
    rw [parse_match_key_field]
    match hs : pySplit ['-', '>'] f with
    | [] => rfl
    | [_] => rfl
    | [a, b] => rw [hs] at hsplit; simp at hsplit
    | _ :: _ :: _ :: _ => rfl
  · intro bw f h
    refine ⟨?_, rfl⟩
    simp only [parse_match_key_field, h]
  · intro bw f pfx plen hsplit k hk hbk hplen
    refine ⟨?_, rfl⟩
    simp only [parse_match_key_field, hsplit, hk, hbk, hplen]

/-- Witness for C6 (amended): the VALID escape clause at literal `"abc"`
and the EXACT caught clause at literal `"zz"` (unparseable at width 8). -/
theorem C6_wrapper_coverage_witness :
    (pyInt10 "abc".toList = none ∧
      parse_match_key_field .VALID 1 "abc".toList = .error .valueError ∧
      wrapperCatches .valueError = false) ∧
    (parse_param "zz".toList 8 = .error (.uin .badParam msgNotInt) ∧
      parse_match_key_field .EXACT 8 "zz".toList =
        .error (.uin .matchKey
          ("Error while parsing ".toList ++ "zz".toList ++ " - ".toList ++ msgNotInt)) ∧
      wrapperCatches (.uin .matchKey
        ("Error while parsing ".toList ++ "zz".toList ++ " - ".toList ++ msgNotInt)) = true) :=
  ⟨⟨by decide, C6_wrapper_coverage.2.2.2.2.2.2.2.1 1 "abc".toList (by decide)⟩,
    ⟨by decide, C6_wrapper_coverage.2.2.2.1 8 "zz".toList msgNotInt (by decide)⟩⟩

/-! ## C4 -/

/-- C4.  Counter reads/resets and per-index meter operations dispatch on
`is_direct` exactly as claimed (direct → the bound table's per-entry call,
non-direct → the standalone array call), and `counter_write` on a direct
counter issues the per-entry write; but `counter_write` on a non-direct
counter issues `bm_counter_read` — the standalone READ call, with the value
as a stray extra argument — instead of a standalone write, contradicting
both the claim and the method's own docstring ("Write a value to a counter
index"). -/
theorem C4_counter_write_nondirect_issues_read :
    counter_read c4Lookup "dcnt".toList "0".toList =
      .ok (.bm_mt_read_counter "tbl".toList 0) ∧
    counter_read c4Lookup "cnt".toList "0".toList =
      .ok (.bm_counter_read "cnt".toList 0 none) ∧
    counter_reset c4Lookup "dcnt".toList = .ok (.bm_mt_reset_counters "tbl".toList) ∧
    counter_reset c4Lookup "cnt".toList = .ok (.bm_counter_reset_all "cnt".toList) ∧
    meter_get_rates c4Lookup "m".toList "1".toList =
      .ok (.bm_mt_get_meter_rates "tbl".toList 1) ∧
    meter_get_rates c4Lookup "mn".toList "1".toList =
      .ok (.bm_meter_get_rates "mn".toList 1) ∧
    meter_set_rates c4Lookup "m".toList "1".toList ["1:2".toList, "3:4".toList] =
      .ok (.bm_mt_set_meter_rates "tbl".toList 1 [("1".toList, 2), ("3".toList, 4)]) ∧
    meter_set_rates c4Lookup "mn".toList "1".toList ["1:2".toList, "3:4".toList] =
      .ok (.bm_meter_set_rates "mn".toList 1 [("1".toList, 2), ("3".toList, 4)]) ∧
    counter_write c4Lookup "dcnt".toList "0".toList 7 =
      .ok (.bm_mt_write_counter "tbl".toList 0 7) ∧
    counter_write c4Lookup "cnt".toList "0".toList 7 =
      .ok (.bm_counter_read "cnt".toList 0 (some 7)) := by decide

/-! ## C2 -/

/-- C2 counterexample.  A parameter-count mismatch (supplied 2, declared 1)
fails with the message `"Action a needs 1 parameters"`, which names only the
expected count: the actual count 2 appears nowhere in it, refuting the
claim's "naming the expected and the actual count". -/
theorem C2_counterexample_actual_count_not_named :
    table_set_default c2Lookup "t".toList "a".toList ["1".toList, "2".toList] =
      .error (.uin .plain "Action a needs 1 parameters".toList) ∧
    "Action a needs 1 parameters".toList.contains '2' = false := by decide

/-- C2 (amended).  For `table_add`, `table_modify` and `table_set_default`:
an action that resolves globally but is not in the target table's action set
fails with an error naming the table and the action; a supplied
action-parameter count different from the declared count fails with an error
naming the action and the expected count (only); and `table_add` with a
match-field count different from the table's key-field count fails naming
the table and its key-field count.  Each failure returns before the
operation's single trailing remote call is reached. -/
theorem C2_table_commands_validation :
    (∀ (lookup : SuffixMap) (tname aname : PyStr) (t : Table) (a : Action),
      lookup (.table, tname) = some (.table t) →
      lookup (.action, aname) = some (.action a) →
      t.actions.contains a.name = false →
      (∀ ps, table_set_default lookup tname aname ps =
        .error (.uin .plain
          ("Table ".toList ++ tname ++ " has no action ".toList ++ aname))) ∧
      (∀ eh ps, table_modify lookup tname aname eh ps =
        .error (.uin .plain
          ("Table ".toList ++ tname ++ " has no action ".toList ++ aname))) ∧
      (∀ mk ps prio, table_add lookup tname aname mk ps prio =
        .error (.uin .plain
          ("Table ".toList ++ tname ++ " has no action ".toList ++ aname)))) ∧
    (∀ (lookup : SuffixMap) (tname aname : PyStr) (t : Table) (a : Action),
      lookup (.table, tname) = some (.table t) →
      lookup (.action, aname) = some (.action a) →
      t.actions.contains a.name = true →
      (∀ ps, ps.length ≠ a.num_params →
        table_set_default lookup tname aname ps =
          .error (.uin .plain ("Action ".toList ++ a.name ++ " needs ".toList ++
            decLit a.num_params ++ " parameters".toList))) ∧
      (∀ eh h ps, pyInt10 eh = some h → ps.length ≠ a.num_params →
        table_modify lookup tname aname eh ps =
          .error (.uin .plain ("Action ".toList ++ a.name ++ " needs ".toList ++
            decLit a.num_params ++ " parameters".toList))) ∧
      (t.match_type ≠ .TERNARY → t.match_type ≠ .RANGE →
        (∀ mk ps prio, mk.length = t.num_key_fields → ps.length ≠ a.num_params →
          table_add lookup tname aname mk ps prio =
            .error (.uin .plain ("Action ".toList ++ a.name ++ " needs ".toList ++
              decLit a.num_params ++ " parameters".toList))) ∧
        (∀ mk ps prio, mk.length ≠ t.num_key_fields →
          table_add lookup tname aname mk ps prio =
            .error (.uin .plain ("Table ".toList ++ tname ++ " needs ".toList ++
              decLit t.num_key_fields ++ " key fields".toList))))) := by
  constructor
  · intro lookup tname aname t a hT hA hNot
    have hga : t.get_action lookup aname = none := by
      simp only [Table.get_action, hA, hNot, Bool.false_eq_true, if_false]
    refine ⟨?_, ?_, ?_⟩
    · intro ps
      simp only [table_set_default, get_res_table, get_res, hT, hga]
    · intro eh ps
      simp only [table_modify, get_res_table, get_res, hT, hga]
    · intro mk ps prio
      simp only [table_add, get_res_table, get_res, hT, hga]
  · intro lookup tname aname t a hT hA hMem
    have hga : t.get_action lookup aname = some a := by
      simp only [Table.get_action, hA, hMem, if_true]
    refine ⟨?_, ?_, ?_⟩
    · intro ps hlen
      simp only [table_set_default, get_res_table, get_res, hT, hga,
        RuntimeAPI_parse_runtime_data, if_pos hlen]
    · intro eh h ps hh hlen
      simp only [table_modify, get_res_table, get_res, hT, hga, hh,
        RuntimeAPI_parse_runtime_data, if_pos hlen]
    · intro hmt1 hmt2
      have hprio : (t.match_type = MatchType.TERNARY ∨ t.match_type = MatchType.RANGE) =
          False := by simp [hmt1, hmt2]
      constructor
      · intro mk ps prio hkeys hlen
        simp only [table_add, get_res_table, get_res, hT, hga, hprio, if_false,
          if_neg (by omega : ¬ mk.length ≠ t.num_key_fields),
          RuntimeAPI_parse_runtime_data, if_pos hlen]
      · intro mk ps prio hkeys
        simp only [table_add, get_res_table, get_res, hT, hga, hprio, if_false,
          if_pos hkeys]

/-- Witness for C2 (amended): table `u` does not have the globally-resolvable
action `a`; and on table `t`, two parameters against the one declared fail
with the expected-count message. -/
theorem C2_table_commands_validation_witness :
    (c2Lookup (.table, "u".toList) = some (.table c2TableU) ∧
      c2Lookup (.action, "a".toList) = some (.action c2Action) ∧
      c2TableU.actions.contains c2Action.name = false ∧
      table_set_default c2Lookup "u".toList "a".toList [] =
        .error (.uin .plain
          ("Table ".toList ++ "u".toList ++ " has no action ".toList ++ "a".toList))) ∧
    (c2Table.actions.contains c2Action.name = true ∧
      table_set_default c2Lookup "t".toList "a".toList ["1".toList, "2".toList] =
        .error (.uin .plain ("Action ".toList ++ c2Action.name ++ " needs ".toList ++
          decLit c2Action.num_params ++ " parameters".toList))) :=
  ⟨⟨by decide, by decide, by decide,
      ((C2_table_commands_validation.1 c2Lookup "u".toList "a".toList c2TableU c2Action
        (by decide) (by decide) (by decide)).1 [])⟩,
    ⟨by decide,
      ((C2_table_commands_validation.2 c2Lookup "t".toList "a".toList c2Table c2Action
        (by decide) (by decide) (by decide)).1 ["1".toList, "2".toList] (by decide))⟩⟩

/-! ## C9 -/

lemma ports_parse_decLit (d : PyStr) :
    ∀ ps : List Nat, ports_parse d (ps.map (fun p => decLit p)) =
      .ok (ps.map (Nat.cast : Nat → Int)) := by
  intro ps
  induction ps with
  | nil => rfl
  | cons p rest ih =>
    simp only [List.map_cons, ports_parse, pyInt10_decLit]
    rw [if_neg (by omega), ih]

lemma ports_parse_bad (d : PyStr) :
    ∀ ports : List PyStr,
      (∃ x ∈ ports, pyInt10 x = none ∨ ∃ v, pyInt10 x = some v ∧ v < 0) →
      ∃ m, ports_parse d ports = .error (.uin .plain m) := by
  intro ports
  induction ports with
  | nil => rintro ⟨x, hx, _⟩; cases hx
  | cons p rest ih =>
    rintro ⟨x, hx, hbad⟩
    rcases List.mem_cons.mp hx with rfl | hxr
    · rcases hbad with hn | ⟨v, hv, hvneg⟩
      · exact ⟨msgBadPort x d, by simp only [ports_parse, hn]⟩
      · refine ⟨msgBadPort x d, ?_⟩
        simp only [ports_parse, hv]
        rw [if_pos hvneg]
    · cases hp : pyInt10 p with
      | none => exact ⟨msgBadPort p d, by simp only [ports_parse, hp]⟩
      | some v =>
        by_cases hvneg : v < 0
        · refine ⟨msgBadPort p d, ?_⟩
          simp only [ports_parse, hp]
          rw [if_pos hvneg]
        · obtain ⟨m, hm⟩ := ih ⟨x, hxr, hbad⟩
          refine ⟨m, ?_⟩
          simp only [ports_parse, hp, hm]
          rw [if_neg hvneg]

lemma exists_max_nat : ∀ (l : List Nat), l ≠ [] → ∃ m, m ∈ l ∧ ∀ x ∈ l, x ≤ m := by
  intro l
  induction l with
  | nil => intro h; exact absurd rfl h
  | cons a rest ih =>
    intro _
    cases rest with
    | nil =>
      refine ⟨a, List.mem_cons_self a [], ?_⟩
      intro x hx
      rcases List.mem_cons.mp hx with rfl | hx
      · exact le_rfl
      · cases hx
    | cons b rest2 =>
      obtain ⟨m, hm, hmax⟩ := ih (List.cons_ne_nil b rest2)
      rcases Nat.le_total a m with hle | hle
      · refine ⟨m, List.mem_cons_of_mem a hm, ?_⟩
        intro x hx
        rcases List.mem_cons.mp hx with rfl | hx2
        · exact hle
        · exact hmax x hx2
      · refine ⟨a, List.mem_cons_self a (b :: rest2), ?_⟩
        intro x hx
        rcases List.mem_cons.mp hx with rfl | hx2
        · exact le_rfl
        · exact le_trans (hmax x hx2) hle

lemma block_getElem (acc : PyStr) (k : Nat) :
    (∀ j, j < acc.length →
      (acc ++ List.replicate k '0' ++ ['1'])[j]? = acc[j]?) ∧
    (∀ t, t < k →
      (acc ++ List.replicate k '0' ++ ['1'])[acc.length + t]? = some '0') ∧
    (acc ++ List.replicate k '0' ++ ['1'])[acc.length + k]? = some '1' := by
  have hlen : (acc ++ List.replicate k '0').length = acc.length + k := by
    simp [List.length_append, List.length_replicate]
  refine ⟨?_, ?_, ?_⟩
  · intro j hj
    rw [List.getElem?_append_left (by rw [hlen]; omega),
      List.getElem?_append_left hj]
  · intro t ht
    rw [List.getElem?_append_left (by rw [hlen]; omega),
      List.getElem?_append_right (by omega)]
    have h1 : acc.length + t - acc.length = t := by omega
    rw [h1]
    simp [List.getElem?_replicate, ht]
  · have h2 : (acc ++ List.replicate k '0' ++ ['1'])[acc.length + k]? =
        ['1'][acc.length + k - (acc ++ List.replicate k '0').length]? :=
      List.getElem?_append_right (by rw [hlen])
    rw [h2, hlen, Nat.sub_self]
    rfl

lemma ports_loop_spec (d : PyStr) :
    ∀ (l : List Int) (last : Int) (acc : PyStr) (m : Int),
      List.Pairwise (· < ·) l → (∀ x ∈ l, last ≤ x) → (∀ x ∈ l, x ≤ m) → m ∈ l →
      ∃ out, ports_loop d last acc l = .ok out ∧
        out.length = acc.length + (m + 1 - last).toNat ∧
        (∀ j, j < acc.length → out[j]? = acc[j]?) ∧
        (∀ i : Int, last ≤ i → i ≤ m →
          out[acc.length + (i - last).toNat]? = some (if i ∈ l then '1' else '0')) := by
  intro l
  induction l with
  | nil => intro last acc m _ _ _ hm; cases hm
  | cons p rest ih =>
    intro last acc m hpw hlb hub hm
    have hlp : last ≤ p := hlb p (List.mem_cons_self p rest)
    have hne : ¬ p = last - 1 := by omega
    rcases List.pairwise_cons.mp hpw with ⟨hplt, hpw2⟩
    obtain ⟨hblk1, hblk2, hblk3⟩ := block_getElem acc (p - last).toNat
    have hacc2len :
        (acc ++ List.replicate (p - last).toNat '0' ++ ['1']).length =
          acc.length + (p + 1 - last).toNat := by
      simp only [List.length_append, List.length_replicate, List.length_cons,
        List.length_nil]
      omega
    cases rest with
    | nil =>
      have hmp : m = p := by
        rcases List.mem_cons.mp hm with h | hmm
        · exact h
        · cases hmm
      refine ⟨acc ++ List.replicate (p - last).toNat '0' ++ ['1'], ?_, ?_, hblk1, ?_⟩
      · simp only [ports_loop, if_neg hne]
      · rw [hacc2len, hmp]
      · intro i hi1 hi2
        by_cases hip : i = p
        · have hidx : (i - last).toNat = (p - last).toNat := by rw [hip]
          rw [hidx, hblk3, if_pos (by rw [hip]; exact List.mem_cons_self p [])]
        · have hilt : i < p := by omega
          rw [hblk2 (i - last).toNat (by omega),
            if_neg (by
              intro hmem
              rcases List.mem_cons.mp hmem with h | hmm
              · exact hip h
              · cases hmm)]
    | cons q rest2 =>
      have hpq : p < q := hplt q (List.mem_cons_self q rest2)
      have hm2 : m ∈ q :: rest2 := by
        rcases List.mem_cons.mp hm with h | hmm
        · exact absurd (hub q (List.mem_cons_of_mem p (List.mem_cons_self q rest2)))
            (by omega)
        · exact hmm
      obtain ⟨out, hloop, hlen, hpre, hmem⟩ :=
        ih (p + 1) (acc ++ List.replicate (p - last).toNat '0' ++ ['1']) m hpw2
          (fun x hx => by have := hplt x hx; omega)
          (fun x hx => hub x (List.mem_cons_of_mem p hx)) hm2
      have hqm : q ≤ m := hub q (List.mem_cons_of_mem p (List.mem_cons_self q rest2))
      have hpm : p + 1 ≤ m := by omega
      refine ⟨out, ?_, ?_, ?_, ?_⟩
      · simp only [ports_loop, if_neg hne]
        exact hloop
      · rw [hlen, hacc2len]
        omega
      · intro j hj
        rw [hpre j (by rw [hacc2len]; omega), hblk1 j hj]
      · intro i hi1 hi2
        by_cases hip : i ≤ p
        · have hidx : acc.length + (i - last).toNat <
              (acc ++ List.replicate (p - last).toNat '0' ++ ['1']).length := by
            rw [hacc2len]; omega
          rw [hpre _ hidx]
          by_cases hieq : i = p
          · have hidx2 : (i - last).toNat = (p - last).toNat := by rw [hieq]
            rw [hidx2, hblk3,
              if_pos (by rw [hieq]; exact List.mem_cons_self p (q :: rest2))]
          · have hilt : i < p := by omega
            rw [hblk2 (i - last).toNat (by omega),
              if_neg (by
                intro hmem2
                rcases List.mem_cons.mp hmem2 with h | hmm
                · exact hieq h
                · have := hplt i hmm
                  omega)]
        · have hip2 : p + 1 ≤ i := by omega
          have hidx : (acc ++ List.replicate (p - last).toNat '0' ++ ['1']).length +
              (i - (p + 1)).toNat = acc.length + (i - last).toNat := by
            rw [hacc2len]; omega
          have hthis := hmem i hip2 hi2
          rw [hidx] at hthis
          rw [hthis, if_congr (Iff.intro
            (fun hmem2 => by
              rcases List.mem_cons.mp hmem2 with h | hmm
              · omega
              · exact hmm)
            (fun hmem2 => List.mem_cons_of_mem p hmem2)) rfl rfl]

lemma ports_loop_dup (d : PyStr) :
    ∀ (l : List Int) (last : Int) (acc : PyStr),
      List.Pairwise (· ≤ ·) l → (∀ x ∈ l, last ≤ x) → ¬ l.Nodup →
      ∃ m, ports_loop d last acc l = .error (.uin .plain m) := by
  intro l
  induction l with
  | nil => intro last acc _ _ hnd; exact absurd List.nodup_nil hnd
  | cons p rest ih =>
    intro last acc hpw hlb hnd
    have hlp : last ≤ p := hlb p (List.mem_cons_self p rest)
    have hne : ¬ p = last - 1 := by omega
    rcases List.pairwise_cons.mp hpw with ⟨hple, hpw2⟩
    cases rest with
    | nil => exact absurd (List.nodup_singleton p) hnd
    | cons q rest2 =>
      rcases List.pairwise_cons.mp hpw2 with ⟨hqle, _⟩
      by_cases hq : q = p
      · subst hq
        refine ⟨msgDupPort d q, ?_⟩
        simp only [ports_loop, if_neg hne]
        rw [if_pos (by omega)]
      · have hpq : p < q := lt_of_le_of_ne (hple q (List.mem_cons_self q rest2)) (Ne.symm hq)
        have hnd2 : ¬ (q :: rest2).Nodup := by
          intro hnodup
          apply hnd
          refine List.nodup_cons.mpr ⟨?_, hnodup⟩
          intro hmem
          rcases List.mem_cons.mp hmem with rfl | hmm
          · omega
          · have := hqle p hmm
            omega
        obtain ⟨m, hm⟩ := ih (p + 1)
          (acc ++ List.replicate (p - last).toNat '0' ++ ['1'])
          hpw2 (fun x hx => by
            rcases List.mem_cons.mp hx with rfl | hmm
            · omega
            · have := hqle x hmm
              omega) hnd2
        refine ⟨m, ?_⟩
        simp only [ports_loop, if_neg hne]
        exact hm

/-- C9.  For every non-empty duplicate-free list of port numbers, the
port-set encoding is a bitmap string of length exactly `max+1` whose
character at distance `p` from the right end is `'1'` exactly when `p` is in
the set; `{0, 2, 3}` encodes to `"1101"`; and the encoding fails with a
`UIn_Error` when any element does not parse as an integer, is negative, or
occurs more than once. -/
theorem C9_port_map_encoding :
    (∀ ps : List Nat, ps ≠ [] → ps.Nodup →
      ∃ bitmap m, ports_to_port_map_str (ps.map (fun p => decLit p)) "port".toList =
          .ok bitmap ∧
        m ∈ ps ∧ (∀ x ∈ ps, x ≤ m) ∧ bitmap.length = m + 1 ∧
        (∀ p : Nat, p ≤ m →
          bitmap.reverse[p]? = some (if p ∈ ps then '1' else '0'))) ∧
    ports_to_port_map_str ["0".toList, "2".toList, "3".toList] "port".toList =
      .ok "1101".toList ∧
    (∀ ports : List PyStr,
      (∃ x ∈ ports, pyInt10 x = none ∨ ∃ v, pyInt10 x = some v ∧ v < 0) →
      ∃ m, ports_to_port_map_str ports "port".toList = .error (.uin .plain m)) ∧
    (∀ ps : List Nat, ¬ ps.Nodup →
      ∃ m, ports_to_port_map_str (ps.map (fun p => decLit p)) "port".toList =
        .error (.uin .plain m)) := by
  have hinj : Function.Injective (Nat.cast : Nat → Int) := Nat.cast_injective
  refine ⟨?_, by decide, ?_, ?_⟩
  · intro ps hne hnd
    obtain ⟨mx, hmx, hmax⟩ := exists_max_nat ps hne
    have hperm := List.perm_insertionSort (· ≤ ·) (ps.map (Nat.cast : Nat → Int))
    have hsorted : List.Pairwise (· ≤ ·)
        (List.insertionSort (· ≤ ·) (ps.map (Nat.cast : Nat → Int))) :=
      List.sorted_insertionSort (· ≤ ·) _
    have hnds : (List.insertionSort (· ≤ ·) (ps.map (Nat.cast : Nat → Int))).Nodup :=
      hperm.nodup_iff.mpr (hnd.map hinj)
    have hplt : List.Pairwise (· < ·)
        (List.insertionSort (· ≤ ·) (ps.map (Nat.cast : Nat → Int))) :=
      (hsorted.and hnds).imp (fun hab => lt_of_le_of_ne hab.1 hab.2)
    have hmem_iff : ∀ i : Int,
        (i ∈ List.insertionSort (· ≤ ·) (ps.map (Nat.cast : Nat → Int))) ↔
          ∃ p ∈ ps, (p : Int) = i := by
      intro i
      rw [hperm.mem_iff, List.mem_map]
    obtain ⟨out, hloop, hlen, _, hbits⟩ :=
      ports_loop_spec "port".toList
        (List.insertionSort (· ≤ ·) (ps.map (Nat.cast : Nat → Int))) 0 [] (mx : Int)
        hplt
        (fun x hx => by
          obtain ⟨p, _, hpi⟩ := (hmem_iff x).mp hx
          omega)
        (fun x hx => by
          obtain ⟨p, hp, hpi⟩ := (hmem_iff x).mp hx
          have := hmax p hp
          omega)
        ((hmem_iff (mx : Int)).mpr ⟨mx, hmx, rfl⟩)
    refine ⟨out.reverse, mx, ?_, hmx, hmax, ?_, ?_⟩
    · simp only [ports_to_port_map_str, ports_parse_decLit, hloop]
    · rw [List.length_reverse, hlen]
      simp only [List.length_nil, Nat.zero_add]
      omega
    · intro p hp
      rw [List.reverse_reverse]
      have := hbits (p : Int) (by omega) (by omega)
      simp only [List.length_nil, Nat.zero_add, Int.sub_zero, Int.toNat_natCast] at this
      rw [this, if_congr ((hmem_iff (p : Int)).trans (Iff.intro
        (fun ⟨q, hq, hqi⟩ => by
          have : q = p := hinj hqi
          rw [← this]; exact hq)
        (fun hp2 => ⟨p, hp2, rfl⟩))) rfl rfl]
  · intro ports hbad
    obtain ⟨m, hm⟩ := ports_parse_bad "port".toList ports hbad
    exact ⟨m, by simp only [ports_to_port_map_str, hm]⟩
  · intro ps hnd
    have hnds : ¬ (List.insertionSort (· ≤ ·) (ps.map (Nat.cast : Nat → Int))).Nodup := by
      intro hnodup
      exact hnd (((List.perm_insertionSort (· ≤ ·) _).nodup_iff.mp hnodup).of_map _)
    obtain ⟨m, hm⟩ := ports_loop_dup "port".toList
      (List.insertionSort (· ≤ ·) (ps.map (Nat.cast : Nat → Int))) 0 []
      (List.sorted_insertionSort (· ≤ ·) _)
      (fun x hx => by
        obtain ⟨p, _, hpi⟩ := List.mem_map.mp ((List.perm_insertionSort (· ≤ ·) _).mem_iff.mp hx)
        omega) hnds
    exact ⟨m, by simp only [ports_to_port_map_str, ports_parse_decLit, hm]⟩

/-- Witness for C9: the main clause applied to `{0, 2, 3}`, whose bitmap has
length 4, and the duplicate clause applied to `[2, 2]`. -/
theorem C9_port_map_encoding_witness :
    (([0, 2, 3] : List Nat) ≠ [] ∧ ([0, 2, 3] : List Nat).Nodup ∧
      (∃ bitmap m, ports_to_port_map_str ([0, 2, 3].map (fun p => decLit p)) "port".toList =
          .ok bitmap ∧
        m ∈ ([0, 2, 3] : List Nat) ∧ (∀ x ∈ ([0, 2, 3] : List Nat), x ≤ m) ∧
        bitmap.length = m + 1 ∧
        (∀ p : Nat, p ≤ m →
          bitmap.reverse[p]? = some (if p ∈ ([0, 2, 3] : List Nat) then '1' else '0')))) ∧
    (¬ ([2, 2] : List Nat).Nodup ∧
      ∃ m, ports_to_port_map_str ([2, 2].map (fun p => decLit p)) "port".toList =
        .error (.uin .plain m)) :=
  ⟨⟨by decide, by decide, C9_port_map_encoding.1 [0, 2, 3] (by decide) (by decide)⟩,
    ⟨by decide, C9_port_map_encoding.2.2.2 [2, 2] (by decide)⟩⟩

/-! ## C5 -/

/-- C5.  `load_json_str` clears the registry before anything else
(`reset_config` leaves exactly the empty registry), so its result never
depends on the prior load — a reload replaces the registry wholesale and no
prior resource remains resolvable — and a JSON parse failure leaves the
registry in the empty state with every suffix lookup unresolvable. -/
theorem C5_load_clears_registry :
    (∀ st : Registry, reset_config st = emptyRegistry) ∧
    (∀ (st : Registry) (doc : Option Config),
      load_json_str st doc = load_json_str emptyRegistry doc) ∧
    (∀ st : Registry, load_json_str st none = (emptyRegistry, some .jsonParse)) ∧
    (∀ (st : Registry) (k : ResType × PyStr),
      (load_json_str st none).1.SUFFIX_LOOKUP_MAP k = none) :=
  ⟨fun _ => rfl, fun _ _ => rfl, fun _ => rfl, fun _ _ => rfl⟩

/-! ## C3: suffix splitting and joining -/

lemma splitChar_ne_nil (c : Char) : ∀ s, splitChar c s ≠ [] := by
  intro s
  cases s with
  | nil => simp [splitChar]
  | cons x rest =>
    rw [splitChar]
    cases splitChar c rest with
    | nil => simp
    | cons p ps =>
      by_cases hx : x = c
      · simp [hx]
      · simp [hx]

lemma pySplitGo_single (c : Char) : ∀ (s : PyStr) (fuel : Nat) (acc : PyStr),
    s.length < fuel →
    pySplitGo [c] fuel s acc =
      match splitChar c s with
      | [] => [acc.reverse]
      | p :: ps => (acc.reverse ++ p) :: ps := by
  intro s
  induction s with
  | nil =>
    intro fuel acc h
    match fuel with
    | f + 1 => simp [pySplitGo, splitChar]
  | cons x rest ih =>
    intro fuel acc h
    match fuel with
    | f + 1 =>
      rw [pySplitGo]
      obtain ⟨p, ps, hps⟩ : ∃ p ps, splitChar c rest = p :: ps := by
        match hsc : splitChar c rest with
        | [] => exact absurd hsc (splitChar_ne_nil c rest)
        | p :: ps => exact ⟨p, ps, rfl⟩
      have hrest : rest.length < f := by
        simp only [List.length_cons] at h
        omega
      by_cases hx : x = c
      · rw [if_pos (by simp [hx])]
        rw [show (x :: rest).drop (List.length [c]) = rest by simp]
        rw [ih f [] hrest]
        rw [show splitChar c (x :: rest) = [] :: p :: ps by rw [splitChar, hps]; simp [hx]]
        rw [hps]
        simp
      · rw [if_neg (by simp [hx])]
        rw [ih f (x :: acc) hrest]
        rw [show splitChar c (x :: rest) = (x :: p) :: ps by
          rw [splitChar, hps]; simp [hx]]
        rw [hps]
        simp

lemma pySplit_single (c : Char) (s : PyStr) : pySplit [c] s = splitChar c s := by
  rw [pySplit, pySplitGo_single c s (s.length + 1) [] (by omega)]
  obtain ⟨p, ps, hps⟩ : ∃ p ps, splitChar c s = p :: ps := by
    match hsc : splitChar c s with
    | [] => exact absurd hsc (splitChar_ne_nil c s)
    | p :: ps => exact ⟨p, ps, rfl⟩
  rw [hps]
  simp

lemma splitChar_joinDots : ∀ s : PyStr, joinDots (splitChar '.' s) = s := by
  intro s
  induction s with
  | nil => rfl
  | cons x rest ih =>
    obtain ⟨p, ps, hps⟩ : ∃ p ps, splitChar '.' rest = p :: ps := by
      match hsc : splitChar '.' rest with
      | [] => exact absurd hsc (splitChar_ne_nil '.' rest)
      | p :: ps => exact ⟨p, ps, rfl⟩
    rw [hps] at ih
    rw [splitChar, hps]
    show joinDots (if x = Char.ofNat 46 then [] :: p :: ps else (x :: p) :: ps) = x :: rest
    by_cases hx : x = '.'
    · rw [if_pos hx]
      cases ps with
      | nil =>
        show [] ++ '.' :: joinDots [p] = x :: rest
        rw [hx, ih]
        rfl
      | cons q qs =>
        rw [show joinDots ([] :: p :: q :: qs) = [] ++ '.' :: joinDots (p :: q :: qs) from rfl]
        simp [ih, hx]
    · rw [if_neg hx]
      cases ps with
      | nil => simp [joinDots] at ih ⊢; exact ih
      | cons q qs =>
        rw [show joinDots ((x :: p) :: q :: qs) = (x :: p) ++ '.' :: joinDots (q :: qs)
          from rfl]
        rw [show joinDots (p :: q :: qs) = p ++ '.' :: joinDots (q :: qs) from rfl] at ih
        simp only [List.cons_append]
        rw [ih]

lemma joinDots_last_merge : ∀ (L : List PyStr) (x a : PyStr),
    joinDots (L ++ [x, a]) = joinDots (L ++ [x ++ '.' :: a]) := by
  intro L
  induction L with
  | nil =>
    intro x a
    rw [List.nil_append, List.nil_append,
      show joinDots [x, a] = x ++ '.' :: joinDots [a] from rfl]
    rfl
  | cons p L ih =>
    intro x a
    have h1 : (p :: L) ++ [x, a] = p :: (L ++ [x, a]) := rfl
    have h2 : (p :: L) ++ [x ++ '.' :: a] = p :: (L ++ [x ++ '.' :: a]) := rfl
    rw [h1, h2]
    have hne1 : L ++ [x, a] ≠ [] := by simp
    have hne2 : L ++ [x ++ '.' :: a] ≠ [] := by simp
    obtain ⟨u, us, hu⟩ := List.exists_cons_of_ne_nil hne1
    obtain ⟨v, vs, hv⟩ := List.exists_cons_of_ne_nil hne2
    rw [hu, hv, show joinDots (p :: u :: us) = p ++ '.' :: joinDots (u :: us) from rfl,
      show joinDots (p :: v :: vs) = p ++ '.' :: joinDots (v :: vs) from rfl,
      ← hu, ← hv, ih]

lemma foldl_joinRev : ∀ (l : List PyStr) (a : PyStr),
    List.foldl (fun acc x => x ++ '.' :: acc) a l = joinDots (l.reverse ++ [a]) := by
  intro l
  induction l with
  | nil => intro a; rfl
  | cons x xs ih =>
    intro a
    rw [List.foldl_cons, ih (x ++ '.' :: a), ← joinDots_last_merge]
    have : xs.reverse ++ [x, a] = (xs.reverse ++ [x]) ++ [a] := by
      rw [List.append_assoc]; rfl
    rw [this, show (x :: xs).reverse = xs.reverse ++ [x] from by simp]

lemma mem_sfxGo_foldl : ∀ (l : List PyStr) (acc : PyStr), l ≠ [] →
    List.foldl (fun a s => s ++ '.' :: a) acc l ∈ sfxGo l (some acc) := by
  intro l
  induction l with
  | nil => intro acc h; exact absurd rfl h
  | cons s rest ih =>
    intro acc _
    cases rest with
    | nil => simp [sfxGo, List.foldl]
    | cons t rest2 =>
      rw [List.foldl_cons, sfxGo]
      exact List.mem_cons_of_mem _ (ih (s ++ '.' :: acc) (List.cons_ne_nil t rest2))

lemma name_mem_suffixesOf (name : PyStr) : name ∈ suffixesOf name := by
  rw [suffixesOf, pySplit_single]
  obtain ⟨p, ps, hps⟩ : ∃ p ps, splitChar '.' name = p :: ps := by
    match hsc : splitChar '.' name with
    | [] => exact absurd hsc (splitChar_ne_nil '.' name)
    | p :: ps => exact ⟨p, ps, rfl⟩
  have hjoin : joinDots (p :: ps) = name := by rw [← hps, splitChar_joinDots]
  obtain ⟨q, qs, hqs⟩ : ∃ q qs, (splitChar '.' name).reverse = q :: qs := by
    match hrev : (splitChar '.' name).reverse with
    | [] =>
      rw [List.reverse_eq_nil_iff] at hrev
      exact absurd hrev (splitChar_ne_nil '.' name)
    | q :: qs => exact ⟨q, qs, rfl⟩
  rw [hqs]
  cases qs with
  | nil =>
    have hone : splitChar '.' name = [q] := by
      have h2 := congrArg List.reverse hqs
      simpa using h2
    have hlist : p :: ps = [q] := hps.symm.trans hone
    injection hlist with h1 h2
    subst h1
    subst h2
    have hq : p = name := hjoin
    simp [sfxGo]
    exact hq.symm
  | cons r rs =>
    rw [sfxGo]
    have hfold := mem_sfxGo_foldl (r :: rs) q (List.cons_ne_nil r rs)
    have hval : List.foldl (fun a s => s ++ '.' :: a) q (r :: rs) = name := by
      rw [foldl_joinRev]
      have : (r :: rs).reverse ++ [q] = ((q :: r :: rs).reverse) := by simp
      rw [this, ← hqs, List.reverse_reverse]
      exact splitChar_joinDots name
    rw [hval] at hfold
    exact List.mem_cons_of_mem q hfold

/-! ## C3: counting suffix-map insertions -/

lemma sfxGo_length_gt : ∀ (l : List PyStr) (acc : PyStr) (x : PyStr),
    x ∈ sfxGo l (some acc) → acc.length < x.length := by
  intro l
  induction l with
  | nil => intro acc x h; simp [sfxGo] at h
  | cons s rest ih =>
    intro acc x h
    rw [sfxGo] at h
    rcases List.mem_cons.mp h with h1 | h2
    · subst h1; simp; omega
    · have := ih (s ++ '.' :: acc) x h2
      simp at this; omega

lemma sfxGo_nodup : ∀ (l : List PyStr) (oacc : Option PyStr), (sfxGo l oacc).Nodup := by
  intro l
  induction l with
  | nil => intro oacc; cases oacc <;> exact List.nodup_nil
  | cons s rest ih =>
    intro oacc
    cases oacc with
    | none =>
      rw [sfxGo]
      refine List.nodup_cons.mpr ⟨fun hmem => ?_, ih (some s)⟩
      exact absurd (sfxGo_length_gt rest s s hmem) (lt_irrefl _)
    | some acc =>
      rw [sfxGo]
      refine List.nodup_cons.mpr ⟨fun hmem => ?_, ih (some (s ++ '.' :: acc))⟩
      exact absurd (sfxGo_length_gt rest (s ++ '.' :: acc) _ hmem) (lt_irrefl _)

lemma suffixesOf_nodup (name : PyStr) : (suffixesOf name).Nodup :=
  sfxGo_nodup _ none

lemma countP_eq_of_nodup {l : List PyStr} (h : l.Nodup) (s : PyStr) :
    l.countP (fun x => decide (x = s)) = if s ∈ l then 1 else 0 := by
  induction l with
  | nil => simp
  | cons x xs ih =>
    rw [List.nodup_cons] at h
    rw [List.countP_cons, ih h.2]
    by_cases hxs : x = s
    · subst hxs
      rw [if_neg h.1, if_pos (List.mem_cons_self x xs)]
      simp
    · simp only [List.mem_cons]
      have : (s = x ∨ s ∈ xs) ↔ s ∈ xs := by
        constructor
        · rintro (h1 | h1)
          · exact absurd h1.symm hxs
          · exact h1
        · exact Or.inr
      rw [if_congr this rfl rfl]
      simp [hxs]

lemma countP_suffixEntries (rt rt2 : ResType) (name : PyStr) (res : Resource)
    (s : PyStr) :
    (suffixEntries rt name res).countP (fun e => decide (e.1 = (rt2, s))) =
      if rt = rt2 ∧ s ∈ suffixesOf name then 1 else 0 := by
  rw [suffixEntries, List.countP_map]
  by_cases hrt : rt = rt2
  · subst hrt
    have hfun : ((fun e => decide (e.1 = (rt, s))) ∘
        (fun sfx => ((rt, sfx), res))) = (fun sfx => decide (sfx = s)) := by
      funext sfx
      simp [Function.comp]
    rw [hfun, countP_eq_of_nodup (suffixesOf_nodup name) s]
    by_cases hmem : s ∈ suffixesOf name
    · rw [if_pos hmem, if_pos ⟨rfl, hmem⟩]
    · rw [if_neg hmem, if_neg (fun hc => hmem hc.2)]
  · rw [if_neg (fun hc => hrt hc.1)]
    rw [List.countP_eq_zero]
    intro a _
    simp [Function.comp, hrt]

lemma countP_flatMap_entries {β : Type} (L : List (PyStr × β))
    (f : PyStr × β → Resource) (rt rt2 : ResType) (s : PyStr) :
    (L.flatMap (fun p => suffixEntries rt p.1 (f p))).countP
        (fun e => decide (e.1 = (rt2, s))) =
      if rt = rt2 then
        (L.map Prod.fst).countP (fun n => decide (s ∈ suffixesOf n))
      else 0 := by
  induction L with
  | nil => simp
  | cons p L ih =>
    rw [List.flatMap_cons, List.countP_append, ih, countP_suffixEntries,
      List.map_cons, List.countP_cons]
    by_cases hrt : rt = rt2
    · rw [if_pos hrt, if_pos hrt]
      by_cases hmem : s ∈ suffixesOf p.1
      · rw [if_pos ⟨hrt, hmem⟩]
        simp [hmem]
        omega
      · rw [if_neg (fun hc => hmem hc.2)]
        simp [hmem]
    · rw [if_neg hrt, if_neg hrt, if_neg (fun hc => hrt hc.1)]

lemma countP_allSuffixEntries (reg : Registry) (rt : ResType) (s : PyStr) :
    (allSuffixEntries reg).countP (fun e => decide (e.1 = (rt, s))) =
      (kindNames reg rt).countP (fun n => decide (s ∈ suffixesOf n)) := by
  rw [allSuffixEntries]
  repeat rw [List.countP_append]
  rw [countP_flatMap_entries reg.TABLES (fun p => .table p.2) .table rt s,
    countP_flatMap_entries reg.ACTION_PROFS (fun p => .actionProf p.2) .action_prof rt s,
    countP_flatMap_entries reg.ACTIONS (fun p => .action p.2) .action rt s,
    countP_flatMap_entries reg.METER_ARRAYS (fun p => .meterArr p.2) .meter_array rt s,
    countP_flatMap_entries reg.COUNTER_ARRAYS (fun p => .counterArr p.2) .counter_array rt s,
    countP_flatMap_entries reg.REGISTER_ARRAYS (fun p => .registerArr p.2)
      .register_array rt s]
  cases rt <;> simp [kindNames]

lemma foldl_smUpdate_isSome :
    ∀ (entries : List ((ResType × PyStr) × Resource)) (m : SuffixMap)
      (k : ResType × PyStr),
    ((entries.foldl (fun m e => smUpdate m e.1 (some e.2)) m) k).isSome =
      ((m k).isSome || entries.any (fun e => decide (e.1 = k))) := by
  intro entries
  induction entries with
  | nil => intro m k; simp
  | cons e es ih =>
    intro m k
    rw [List.foldl_cons, ih, List.any_cons]
    by_cases hk : e.1 = k
    · subst hk
      simp [smUpdate]
    · have : smUpdate m e.1 (some e.2) k = m k := by
        rw [smUpdate, if_neg (fun hc => hk hc.symm)]
      rw [this]
      have : decide (e.1 = k) = false := by simp [hk]
      rw [this]
      simp

lemma buildSuffixLookup_isSome (reg : Registry) (k : ResType × PyStr) :
    ((buildSuffixLookup reg) k).isSome = true ↔
      (allSuffixEntries reg).countP (fun e => decide (e.1 = k)) = 1 := by
  simp only [buildSuffixLookup]
  by_cases hgt : 1 < (allSuffixEntries reg).countP (fun e => decide (e.1 = k))
  · rw [if_pos hgt]
    simp
    omega
  · rw [if_neg hgt]
    rw [foldl_smUpdate_isSome]
    simp only [Option.isSome_none, Bool.false_or]
    rw [List.any_eq_true]
    constructor
    · rintro ⟨e, hmem, he⟩
      have : 0 < (allSuffixEntries reg).countP (fun e => decide (e.1 = k)) :=
        List.countP_pos_iff.mpr ⟨e, hmem, he⟩
      omega
    · intro hone
      have : 0 < (allSuffixEntries reg).countP (fun e => decide (e.1 = k)) := by omega
      exact List.countP_pos_iff.mp this

lemma countP_eq_one_iff {l : List PyStr} (hnd : l.Nodup) (P : PyStr → Prop)
    [DecidablePred P] :
    l.countP (fun x => decide (P x)) = 1 ↔
      ∃ n, n ∈ l ∧ P n ∧ ∀ m ∈ l, P m → m = n := by
  induction l with
  | nil => simp
  | cons x xs ih =>
    rw [List.nodup_cons] at hnd
    rw [List.countP_cons]
    by_cases hPx : P x
    · rw [if_pos (decide_eq_true hPx)]
      constructor
      · intro h
        have hz : xs.countP (fun x => decide (P x)) = 0 := by omega
        rw [List.countP_eq_zero] at hz
        refine ⟨x, List.mem_cons_self x xs, hPx, ?_⟩
        intro m hm hPm
        rcases List.mem_cons.mp hm with h1 | h1
        · exact h1
        · exact absurd hPm (by simpa using hz m h1)
      · rintro ⟨n, hn, hPn, huniq⟩
        have hz : xs.countP (fun x => decide (P x)) = 0 := by
          rw [List.countP_eq_zero]
          intro a ha
          simp only [decide_eq_true_eq]
          intro hPa
          have h1 : a = n := huniq a (List.mem_cons_of_mem x ha) hPa
          have h2 : x = n := huniq x (List.mem_cons_self x xs) hPx
          rw [h1.trans h2.symm] at ha
          exact hnd.1 ha
        omega
    · rw [if_neg (by simpa using hPx), Nat.add_zero, ih hnd.2]
      constructor
      · rintro ⟨n, hn, hPn, huniq⟩
        refine ⟨n, List.mem_cons_of_mem x hn, hPn, ?_⟩
        intro m hm hPm
        rcases List.mem_cons.mp hm with h1 | h1
        · subst h1; exact absurd hPm hPx
        · exact huniq m h1 hPm
      · rintro ⟨n, hn, hPn, huniq⟩
        rcases List.mem_cons.mp hn with h1 | h1
        · subst h1; exact absurd hPn hPx
        · exact ⟨n, h1, hPn, fun m hm hPm => huniq m (List.mem_cons_of_mem x hm) hPm⟩

/-! ## C3: duplicate-free keys through the load -/

lemma dictInsert_keys {α : Type} (m : List (PyStr × α)) (k : PyStr) (v : α) :
    (dictInsert m k v).map Prod.fst =
      if m.any (fun e => decide (e.1 = k)) then m.map Prod.fst
      else m.map Prod.fst ++ [k] := by
  rw [dictInsert]
  by_cases h : m.any (fun e => decide (e.1 = k))
  · rw [if_pos h, if_pos h, List.map_map]
    apply List.map_congr_left
    intro e _
    by_cases he : e.1 = k
    · simp [he]
    · simp [he]
  · rw [if_neg h, if_neg h]
    simp

lemma dictInsert_keys_nodup {α : Type} {m : List (PyStr × α)}
    (h : (m.map Prod.fst).Nodup) (k : PyStr) (v : α) :
    ((dictInsert m k v).map Prod.fst).Nodup := by
  rw [dictInsert_keys]
  by_cases hany : m.any (fun e => decide (e.1 = k))
  · rw [if_pos hany]; exact h
  · rw [if_neg hany]
    rw [List.nodup_append]
    refine ⟨h, List.nodup_singleton k, ?_⟩
    intro a ha hb
    rw [List.mem_singleton] at hb
    subst hb
    rw [List.mem_map] at ha
    obtain ⟨e, hem, hek⟩ := ha
    rw [List.any_eq_true] at hany
    exact hany ⟨e, hem, by simp [hek]⟩

lemma keysNodup_load_actions : ∀ (l : List JAction) (st : Registry),
    KeysNodup st → KeysNodup (load_actions st l) := by
  intro l
  induction l with
  | nil => intro st h; exact h
  | cons j rest ih =>
    intro st h
    rw [load_actions, List.foldl_cons]
    exact ih _ ⟨h.1, h.2.1, dictInsert_keys_nodup h.2.2.1 _ _, h.2.2.2.1,
      h.2.2.2.2.1, h.2.2.2.2.2⟩

lemma keysNodup_load_action_profs : ∀ (l : List JActProf) (st : Registry),
    KeysNodup st → KeysNodup (load_action_profs st l) := by
  intro l
  induction l with
  | nil => intro st h; exact h
  | cons j rest ih =>
    intro st h
    rw [load_action_profs, List.foldl_cons]
    exact ih _ ⟨h.1, dictInsert_keys_nodup h.2.1 _ _, h.2.2.1, h.2.2.2.1,
      h.2.2.2.2.1, h.2.2.2.2.2⟩

lemma keysNodup_load_table {cfg : Config} {st : Registry} {j : JTable}
    {st2 : Registry} (h : load_table cfg st j = .ok st2) (hk : KeysNodup st) :
    KeysNodup st2 := by
  simp only [load_table] at h
  cases hca : check_table_actions st.ACTIONS j.actions with
  | error e => simp [hca] at h
  | ok u =>
    simp only [hca] at h
    by_cases hind : j.type_ = TableType.indirect ∨ j.type_ = TableType.indirect_ws
    · rw [if_pos hind] at h
      cases hap : j.action_profile with
      | some apname =>
        simp only [hap] at h
        cases hdg : dictGet st.ACTION_PROFS apname with
        | none => simp [hdg] at h
        | some prof =>
          simp only [hdg] at h
          cases hrk : resolve_keys cfg j.key with
          | error e => simp [hrk] at h
          | ok key =>
            simp only [hrk] at h
            injection h with h2
            subst h2
            exact ⟨dictInsert_keys_nodup hk.1 _ _,
              dictInsert_keys_nodup hk.2.1 _ _, hk.2.2.1, hk.2.2.2.1,
              hk.2.2.2.2.1, hk.2.2.2.2.2⟩
      | none =>
        simp only [hap] at h
        cases hapn : j.act_prof_name with
        | none => simp [hapn] at h
        | some apn =>
          simp only [hapn] at h
          cases hrk : resolve_keys cfg j.key with
          | error e => simp [hrk] at h
          | ok key =>
            simp only [hrk] at h
            injection h with h2
            subst h2
            exact ⟨dictInsert_keys_nodup hk.1 _ _,
              dictInsert_keys_nodup hk.2.1 _ _, hk.2.2.1, hk.2.2.2.1,
              hk.2.2.2.2.1, hk.2.2.2.2.2⟩
    · rw [if_neg hind] at h
      cases hrk : resolve_keys cfg j.key with
      | error e => simp [hrk] at h
      | ok key =>
        simp only [hrk] at h
        injection h with h2
        subst h2
        exact ⟨dictInsert_keys_nodup hk.1 _ _, hk.2.1, hk.2.2.1, hk.2.2.2.1,
          hk.2.2.2.2.1, hk.2.2.2.2.2⟩

lemma keysNodup_load_tables : ∀ {cfg : Config} (l : List JTable)
    {st st2 : Registry}, load_tables cfg st l = .ok st2 → KeysNodup st →
    KeysNodup st2 := by
  intro cfg l
  induction l with
  | nil =>
    intro st st2 h hk
    rw [load_tables] at h
    injection h with h2
    subst h2
    exact hk
  | cons j rest ih =>
    intro st st2 h hk
    rw [load_tables] at h
    split at h
    · exact absurd h (by simp)
    · rename_i st3 heq
      exact ih h (keysNodup_load_table heq hk)

lemma keysNodup_load_pipelines : ∀ {cfg : Config} (l : List JPipeline)
    {st st2 : Registry}, load_pipelines cfg st l = .ok st2 → KeysNodup st →
    KeysNodup st2 := by
  intro cfg l
  induction l with
  | nil =>
    intro st st2 h hk
    rw [load_pipelines] at h
    injection h with h2
    subst h2
    exact hk
  | cons jp rest ih =>
    intro st st2 h hk
    rw [load_pipelines] at h
    split at h
    · exact absurd h (by simp)
    · rename_i st3 heq
      refine ih h ?_
      refine keysNodup_load_tables jp.tables heq ?_
      cases hpf : jp.action_profiles with
      | none => simpa [hpf] using hk
      | some profs => simpa [hpf] using keysNodup_load_action_profs profs st hk

lemma keysNodup_load_meters : ∀ (l : List JMeter) (st : Registry),
    KeysNodup st → KeysNodup (load_meters st l) := by
  intro l
  induction l with
  | nil => intro st h; exact h
  | cons j rest ih =>
    intro st h
    rw [load_meters, List.foldl_cons]
    exact ih _ ⟨h.1, h.2.1, h.2.2.1, dictInsert_keys_nodup h.2.2.2.1 _ _,
      h.2.2.2.2.1, h.2.2.2.2.2⟩

lemma keysNodup_load_counters : ∀ (l : List JCounter) (st : Registry),
    KeysNodup st → KeysNodup (load_counters st l) := by
  intro l
  induction l with
  | nil => intro st h; exact h
  | cons j rest ih =>
    intro st h
    rw [load_counters, List.foldl_cons]
    exact ih _ ⟨h.1, h.2.1, h.2.2.1, h.2.2.2.1,
      dictInsert_keys_nodup h.2.2.2.2.1 _ _, h.2.2.2.2.2⟩

lemma keysNodup_load_registers : ∀ (l : List JRegister) (st : Registry),
    KeysNodup st → KeysNodup (load_registers st l) := by
  intro l
  induction l with
  | nil => intro st h; exact h
  | cons j rest ih =>
    intro st h
    rw [load_registers, List.foldl_cons]
    exact ih _ ⟨h.1, h.2.1, h.2.2.1, h.2.2.2.1, h.2.2.2.2.1,
      dictInsert_keys_nodup h.2.2.2.2.2 _ _⟩

lemma keysNodup_load_calcs : ∀ (l : List JCalc) (st : Registry),
    KeysNodup st → KeysNodup (load_calcs st l) := by
  intro l
  induction l with
  | nil => intro st h; exact h
  | cons j rest ih =>
    intro st h
    rw [load_calcs, List.foldl_cons]
    refine ih _ ?_
    by_cases h16 : j.algo = "crc16_custom".toList
    · rw [if_pos h16]
      exact ⟨h.1, h.2.1, h.2.2.1, h.2.2.2.1, h.2.2.2.2.1, h.2.2.2.2.2⟩
    · rw [if_neg h16]
      by_cases h32 : j.algo = "crc32_custom".toList
      · rw [if_pos h32]
        exact ⟨h.1, h.2.1, h.2.2.1, h.2.2.2.1, h.2.2.2.2.1, h.2.2.2.2.2⟩
      · rw [if_neg h32]
        exact h

lemma keysNodup_reset (st : Registry) : KeysNodup (reset_config st) :=
  ⟨List.nodup_nil, List.nodup_nil, List.nodup_nil, List.nodup_nil,
    List.nodup_nil, List.nodup_nil⟩

/-- Successful-load inversion: the resulting registry has duplicate-free key
lists in all six maps and its suffix index is exactly `buildSuffixLookup` of
that registry. -/
lemma load_ok_inversion (cfg : Config)
    (h : (load_json_str emptyRegistry (some cfg)).2 = none) :
    KeysNodup (load_json_str emptyRegistry (some cfg)).1 ∧
      (load_json_str emptyRegistry (some cfg)).1.SUFFIX_LOOKUP_MAP =
        buildSuffixLookup (load_json_str emptyRegistry (some cfg)).1 := by
  have hred : load_json_str emptyRegistry (some cfg) =
      match load_pipelines cfg (load_actions (reset_config emptyRegistry)
          cfg.actions) cfg.pipelines with
      | .error e => (reset_config emptyRegistry, some e)
      | .ok st2 =>
        (withSuffix (load_calcs (load_registers (load_counters
          (load_meters st2 cfg.meter_arrays) cfg.counter_arrays)
          cfg.register_arrays) cfg.calculations), none) := rfl
  rw [hred] at h ⊢
  cases hp : load_pipelines cfg (load_actions (reset_config emptyRegistry)
      cfg.actions) cfg.pipelines with
  | error e => simp [hp] at h
  | ok st2 =>
    simp only [hp] at h ⊢
    have hk2 : KeysNodup st2 :=
      keysNodup_load_pipelines cfg.pipelines hp
        (keysNodup_load_actions cfg.actions _ (keysNodup_reset _))
    have hk6 : KeysNodup (load_calcs (load_registers (load_counters
        (load_meters st2 cfg.meter_arrays) cfg.counter_arrays)
        cfg.register_arrays) cfg.calculations) :=
      keysNodup_load_calcs _ _ (keysNodup_load_registers _ _
        (keysNodup_load_counters _ _ (keysNodup_load_meters _ _ hk2)))
    exact ⟨hk6, rfl⟩

/-! ## C3 -/

/-- C3 counterexample.  With same-kind tables `bar.baz` and `foo.bar.baz`
the load succeeds and `bar.baz` is a registered table name, yet the suffix
index maps `(table, "bar.baz")` to nothing: the full name `bar.baz` collides
with a suffix of `foo.bar.baz` and is pruned with it, refuting the claim
that "the exact fully-qualified name always remains resolvable". -/
theorem C3_counterexample_nested_full_name :
    (load_json_str emptyRegistry (some c3CfgNested)).2 = none ∧
    "bar.baz".toList ∈
      kindNames (load_json_str emptyRegistry (some c3CfgNested)).1 .table ∧
    (load_json_str emptyRegistry (some c3CfgNested)).1.SUFFIX_LOOKUP_MAP
      (.table, "bar.baz".toList) = none := by
  refine ⟨by decide, by decide, by decide⟩

/-- C3 (amended).  After a successful load: (1) the suffix index resolves
`(kind, s)` exactly when `s` is a dot-delimited trailing segment combination
of exactly one registered name of that kind; (2) a suffix produced by two
distinct same-kind names resolves to nothing (removed entirely); (3) a full
name remains resolvable precisely when it is not also a suffix of another
same-kind name; and (4) for tables `foo.bar.baz` and `qux.bar.baz` the
suffixes `bar.baz` and `baz` resolve to nothing while both full names
resolve. -/
theorem C3_suffix_index_resolution :
    (∀ (cfg : Config), (load_json_str emptyRegistry (some cfg)).2 = none →
      ∀ (rt : ResType) (s : PyStr),
        (((load_json_str emptyRegistry (some cfg)).1.SUFFIX_LOOKUP_MAP
            (rt, s)).isSome = true ↔
          ∃ n, n ∈ kindNames (load_json_str emptyRegistry (some cfg)).1 rt ∧
            s ∈ suffixesOf n ∧
            ∀ m ∈ kindNames (load_json_str emptyRegistry (some cfg)).1 rt,
              s ∈ suffixesOf m → m = n)) ∧
    (∀ (cfg : Config), (load_json_str emptyRegistry (some cfg)).2 = none →
      ∀ (rt : ResType) (n1 n2 s : PyStr),
        n1 ∈ kindNames (load_json_str emptyRegistry (some cfg)).1 rt →
        n2 ∈ kindNames (load_json_str emptyRegistry (some cfg)).1 rt →
        n1 ≠ n2 → s ∈ suffixesOf n1 → s ∈ suffixesOf n2 →
        (load_json_str emptyRegistry (some cfg)).1.SUFFIX_LOOKUP_MAP
          (rt, s) = none) ∧
    (∀ (cfg : Config), (load_json_str emptyRegistry (some cfg)).2 = none →
      ∀ (rt : ResType) (n : PyStr),
        n ∈ kindNames (load_json_str emptyRegistry (some cfg)).1 rt →
        (∀ m ∈ kindNames (load_json_str emptyRegistry (some cfg)).1 rt,
          n ∈ suffixesOf m → m = n) →
        ((load_json_str emptyRegistry (some cfg)).1.SUFFIX_LOOKUP_MAP
          (rt, n)).isSome = true) ∧
    ((load_json_str emptyRegistry (some c3CfgPair)).2 = none ∧
      (load_json_str emptyRegistry (some c3CfgPair)).1.SUFFIX_LOOKUP_MAP
        (.table, "bar.baz".toList) = none ∧
      (load_json_str emptyRegistry (some c3CfgPair)).1.SUFFIX_LOOKUP_MAP
        (.table, "baz".toList) = none ∧
      ((load_json_str emptyRegistry (some c3CfgPair)).1.SUFFIX_LOOKUP_MAP
        (.table, "foo.bar.baz".toList)).isSome = true ∧
      ((load_json_str emptyRegistry (some c3CfgPair)).1.SUFFIX_LOOKUP_MAP
        (.table, "qux.bar.baz".toList)).isSome = true) := by
  have hchar : ∀ (cfg : Config),
      (load_json_str emptyRegistry (some cfg)).2 = none →
      ∀ (rt : ResType) (s : PyStr),
        (((load_json_str emptyRegistry (some cfg)).1.SUFFIX_LOOKUP_MAP
            (rt, s)).isSome = true ↔
          ∃ n, n ∈ kindNames (load_json_str emptyRegistry (some cfg)).1 rt ∧
            s ∈ suffixesOf n ∧
            ∀ m ∈ kindNames (load_json_str emptyRegistry (some cfg)).1 rt,
              s ∈ suffixesOf m → m = n) := by
    intro cfg h rt s
    obtain ⟨hk, hsl⟩ := load_ok_inversion cfg h
    rw [hsl, buildSuffixLookup_isSome, countP_allSuffixEntries]
    have hnd : (kindNames (load_json_str emptyRegistry (some cfg)).1 rt).Nodup := by
      cases rt
      · exact hk.1
      · exact hk.2.1
      · exact hk.2.2.1
      · exact hk.2.2.2.1
      · exact hk.2.2.2.2.1
      · exact hk.2.2.2.2.2
    exact countP_eq_one_iff hnd (fun n => s ∈ suffixesOf n)
  refine ⟨hchar, ?_, ?_, by decide, by decide, by decide, by decide, by decide⟩
  · intro cfg h rt n1 n2 s h1 h2 hne hs1 hs2
    cases hopt : (load_json_str emptyRegistry (some cfg)).1.SUFFIX_LOOKUP_MAP
        (rt, s) with
    | none => rfl
    | some r =>
      exfalso
      have hsome : ((load_json_str emptyRegistry
          (some cfg)).1.SUFFIX_LOOKUP_MAP (rt, s)).isSome = true := by
        rw [hopt]; rfl
      obtain ⟨n, hn, hsn, huniq⟩ := (hchar cfg h rt s).mp hsome
      exact hne ((huniq n1 h1 hs1).trans (huniq n2 h2 hs2).symm)
  · intro cfg h rt n hn huniq
    exact (hchar cfg h rt n).mpr ⟨n, hn, name_mem_suffixesOf n, huniq⟩

/-- C3 witness: for the `foo.bar.baz`/`qux.bar.baz` configuration the load
succeeds, `foo.bar.baz` is a registered table name that is a suffix of no
other table name, and the theorem resolves it in the suffix index. -/
theorem C3_suffix_index_resolution_witness :
    ((load_json_str emptyRegistry (some c3CfgPair)).1.SUFFIX_LOOKUP_MAP
      (.table, "foo.bar.baz".toList)).isSome = true :=
  C3_suffix_index_resolution.2.2.1 c3CfgPair (by decide) .table
    "foo.bar.baz".toList (by decide) (by decide)

end P4RT
